import Mathlib

/-!
# mustard-game-switcher: game catalog and art resolver

A shallow embedding of `src/gameInfo.cpp`, `src/helpers/strHelpers.h`, the
navigation functions and the frame loop of `src/main.cpp`, and the texture cache
of `src/mrenderer.h`.

* A `std::string` is a `List Char` (`Str`); the code inspects characters only
  by equality, by `<` (which on UTF-8 bytes agrees with code-point order) and
  through `std::toupper` in the default "C" locale.
* A file system is observed through the contents of the files that can be
  opened for reading and the paths that can be opened for writing.
* A `std::filesystem::directory_entry` is observed through the accessors the
  code calls on it.
* An `int` is an integer of `Int`, its arithmetic being the exact one (the values
  stay far from the bounds of `int`); conversions to and from `size_t` are
  reductions modulo a power of two. A `double` is a rational number, its
  arithmetic being the exact one.
-/

namespace Mustard

/-- A `std::string`. -/
abbrev Str := List Char

/-! ## `gameInfo.h` -/

/-- The record `GameInfoData` of `gameInfo.h`; a default-constructed value has
`active = false` and empty strings. -/
structure GameInfoData where
  active : Bool := false
  name : Str := []
  core : Str := []
  coreName : Str := []
  number : Str := []
  drive : Str := []
  folder : Str := []
  fileName : Str := []
  deriving DecidableEq, Repr

/-- The record `GameVisualData` of `gameInfo.h`. -/
structure GameVisualData where
  active : Bool := false
  filePath : Str := []
  deriving DecidableEq, Repr

/-! ## Streams and files -/

/-- Characters extracted by `std::getline(stream, line, delim)` from a stream
holding `s`, paired with what is left in the stream: characters are taken up to
the first `delim`, which is consumed and not stored, or up to the end. -/
def getlineAux (delim : Char) : Str → Str × Str
  | [] => ([], [])
  | c :: cs =>
    if c = delim then ([], cs)
    else (c :: (getlineAux delim cs).1, (getlineAux delim cs).2)

/-- The call `std::getline(stream, line, delim)`: it fails (`none`) exactly
when no character at all could be extracted, that is at end of stream. -/
def getline (delim : Char) (stream : Str) : Option (Str × Str) :=
  match stream with
  | [] => none
  | _ :: _ => some (getlineAux delim stream)

/-- What the program sees of the files: `files p` is the content of `p` when an
`std::ifstream` on `p` opens, `writable p` tells whether an `std::ofstream` on
`p` opens. -/
structure FileSystem where
  files : Str → Option Str
  writable : Str → Bool

/-- The file system after a successful `std::ofstream` write of `content` to
`filePath` (the file is created or truncated). -/
def FileSystem.store (fs : FileSystem) (filePath content : Str) : FileSystem :=
  { fs with files := fun p => if p = filePath then some content else fs.files p }

/-! ## `loadGameInfo` -/

/-- The `switch (lineCount)` of `loadGameInfo`: line `0..6` is moved into the
corresponding field, any other line is dropped. -/
def assignLine (game : GameInfoData) (lineCount : Nat) (line : Str) : GameInfoData :=
  match lineCount with
  | 0 => { game with name := line }
  | 1 => { game with core := line }
  | 2 => { game with coreName := line }
  | 3 => { game with number := line }
  | 4 => { game with drive := line }
  | 5 => { game with folder := line }
  | 6 => { game with fileName := line }
  | _ => game

/-- The loop `while (std::getline(file, line)) { switch ...; lineCount++; }`.
The first argument bounds the number of iterations; every iteration consumes at
least one character of the stream, so `stream.length + 1` iterations always
reach the end of the stream. -/
def readLines : Nat → Str → Nat → GameInfoData → GameInfoData
  | 0, _, _, game => game
  | fuel + 1, stream, lineCount, game =>
    match getline '\n' stream with
    | none => game
    | some (line, rest) => readLines fuel rest (lineCount + 1) (assignLine game lineCount line)

/-- The function `loadGameInfo(filePath)`. -/
def loadGameInfo (fs : FileSystem) (filePath : Str) : GameInfoData :=
  match fs.files filePath with
  | some content => readLines (content.length + 1) content 0 { active := true }
  | none => {}

/-! ## `writeGameInfo` -/

/-- The seven `file << field << std::endl` statements of `writeGameInfo`. -/
def serialize (game : GameInfoData) : Str :=
  game.name ++ ['\n'] ++ (game.core ++ ['\n']) ++ (game.coreName ++ ['\n'])
    ++ (game.number ++ ['\n']) ++ (game.drive ++ ['\n']) ++ (game.folder ++ ['\n'])
    ++ (game.fileName ++ ['\n'])

/-- The function `writeGameInfo(filePath, game)`: the file system afterwards and
the returned record, which is the argument. -/
def writeGameInfo (fs : FileSystem) (filePath : Str) (game : GameInfoData) :
    FileSystem × GameInfoData :=
  if fs.writable filePath then (fs.store filePath (serialize game), game) else (fs, game)

/-- Reference parse of a record file, in the words of the specification: up to
seven lines in the fixed field order, any field past the end of the file stays
empty, and the record is active. -/
def parseRecord (lines : List Str) : GameInfoData :=
  { active := true
    name := lines.getD 0 []
    core := lines.getD 1 []
    coreName := lines.getD 2 []
    number := lines.getD 3 []
    drive := lines.getD 4 []
    folder := lines.getD 5 []
    fileName := lines.getD 6 [] }

/-- The content of a file made of the given newline-terminated lines. -/
def unlines (lines : List Str) : Str :=
  match lines with
  | [] => []
  | l :: ls => l ++ '\n' :: unlines ls

/-! ## `helpers/strHelpers.h` -/

/-- The function `strEndsWith(str, suffix)`: a length guard, then
`str.compare(str.length() - suffix.length(), suffix.length(), suffix) == 0`. -/
def strEndsWith (str suffix : Str) : Bool :=
  if str.length < suffix.length then false
  else decide (str.drop (str.length - suffix.length) = suffix)

/-- The function `strStartsWith(str, prefix)`: a length guard, then
`str.compare(0, prefix.length(), prefix) == 0`. -/
def strStartsWith (str pre : Str) : Bool :=
  if str.length < pre.length then false
  else decide (str.take pre.length = pre)

/-- The call `std::toupper(c)` in the "C" locale: the letters `a`..`z` are
moved to `A`..`Z`, every other character is returned as it is. -/
def toupper (c : Char) : Char :=
  if 97 ≤ c.toNat ∧ c.toNat ≤ 122 then Char.ofNat (c.toNat - 32) else c

/-- The function `strToUpper(str)`. -/
def strToUpper (str : Str) : Str := str.map toupper

/-- The call `s.find(pat)` of `std::string`: the offset of the first
occurrence of `pat` in `s`, `none` for `npos`. -/
def strFind (pat : Str) : Str → Option Nat
  | [] => if pat = [] then some 0 else none
  | c :: cs =>
    if pat.isPrefixOf (c :: cs) then some 0 else (strFind pat cs).map (· + 1)

/-- The loop of `strReplaceAll`. The string `result` of the source is
`done ++ rest` and `startPos` is `done.length`: one iteration finds `pat` in
`rest`, replaces it by `rep` and moves `startPos` behind the inserted text. The
first argument bounds the number of iterations; `none` says that the bound was
reached before `find` returned `npos`. -/
def replaceLoop (pat rep : Str) : Nat → Str → Str → Option Str
  | 0, _, _ => none
  | fuel + 1, done, rest =>
    match strFind pat rest with
    | none => some (done ++ rest)
    | some k => replaceLoop pat rep fuel (done ++ rest.take k ++ rep) (rest.drop (k + pat.length))

/-- The function `strReplaceAll(str, from, to)`. With a non-empty `from` every
iteration consumes a character of `str`, so `str.length + 1` iterations are
enough; with an empty `from` the source never leaves its loop and the result
is `none`. -/
def strReplaceAll (str pat rep : Str) : Option Str :=
  replaceLoop pat rep (str.length + 1) [] str

/-- The loop `while (std::getline(ss, token, delimiter)) tokens.push_back(token)`
of `strSplit`; the first argument bounds the number of iterations, each of which
consumes a character of the stream. -/
def splitLoop (delimiter : Char) : Nat → Str → List Str → List Str
  | 0, _, tokens => tokens
  | fuel + 1, ss, tokens =>
    match getline delimiter ss with
    | none => tokens
    | some (token, rest) => splitLoop delimiter fuel rest (tokens ++ [token])

/-- The function `strSplit(str, delimiter)`. -/
def strSplit (str : Str) (delimiter : Char) : List Str :=
  splitLoop delimiter (str.length + 1) str []

/-- The loop of `strJoin` from index `i` on, `strings` being the elements that
are left. -/
def joinLoop (delimiter : Str) : List Str → Nat → Str → Str
  | [], _, result => result
  | s :: strings, i, result =>
    joinLoop delimiter strings (i + 1) ((if i > 0 then result ++ delimiter else result) ++ s)

/-- The function `strJoin(strings, delimiter)`. -/
def strJoin (strings : List Str) (delimiter : Str) : Str :=
  joinLoop delimiter strings 0 []

/-! ## Directories and `std::sort` -/

/-- A `std::filesystem::directory_entry` as the code observes it:
`path().string()`, `path().filename()`, `path().extension()`, `is_directory()`
and `last_write_time`. -/
structure DirEntry where
  path : Str
  filename : Str
  extension : Str
  isDirectory : Bool
  lastWriteTime : Int
  deriving DecidableEq, Repr

/-- Directory listings: `dirs p` is the sequence of entries that
`directory_iterator(p)` yields, in enumeration order, `none` when `p` does not
exist. -/
abbrev Listing := Str → Option (List DirEntry)

/-- Insertion of `x` into a sequence ordered by the comparator `comp`. -/
def sortedInsert {α : Type} (comp : α → α → Bool) (x : α) : List α → List α
  | [] => [x]
  | y :: ys => if comp x y then x :: y :: ys else y :: sortedInsert comp x ys

/-- The call `std::sort(v.begin(), v.end(), comp)`: the elements are rearranged
so that no element is `comp`-less than one before it. The order among elements
that `comp` does not separate is left open by the library; here it is the one of
an insertion sort. -/
def stdSort {α : Type} (comp : α → α → Bool) : List α → List α
  | [] => []
  | x :: xs => sortedInsert comp x (stdSort comp xs)

/-! ## `loadGameListAtPath` -/

/-- The `for` loop of `loadGameListAtPath` over the entries of the directory. -/
def scanLoop (fs : FileSystem) : List DirEntry → List GameInfoData → List GameInfoData
  | [], games => games
  | entry :: entries, games =>
    if entry.extension = ".cfg".toList then
      if strEndsWith (loadGameInfo fs entry.path).core "libretro.so".toList then
        scanLoop fs entries (games ++ [loadGameInfo fs entry.path])
      else scanLoop fs entries games
    else scanLoop fs entries games

/-- The function `loadGameListAtPath(folderPath)`. -/
def loadGameListAtPath (fs : FileSystem) (dirs : Listing) (folderPath : Str) :
    List GameInfoData :=
  match dirs folderPath with
  | some entries =>
    stdSort (fun a b => decide (a.core < b.core)) (scanLoop fs entries [])
  | none => []

/-! ## `loadGameVisualData` -/

/-- Lines 143-149 of `gameInfo.cpp`: the identifier itself when `strSplit`
yields at most one segment, otherwise all segments but the last, joined. -/
def keptCore (core : Str) : Str :=
  if (strSplit core '_').length > 1 then strJoin (strSplit core '_').dropLast [] else core

/-- Lines 143-153: the value of `normalizedCore`. -/
def normalizedCore (core : Str) : Option Str := do
  let s ← strReplaceAll (keptCore core) [' '] []
  let s ← strReplaceAll s ['-'] []
  let s ← strReplaceAll s ['_'] []
  pure (strToUpper s)

/-- Lines 169-172: the value of `normalizedFolderName`. -/
def normalizedFolderName (foldername : Str) : Option Str := do
  let s ← strReplaceAll (strToUpper foldername) [' '] []
  let s ← strReplaceAll s [' '] []
  let s ← strReplaceAll s ['-'] []
  strReplaceAll s ['_'] []

/-- The loop of lines 166-183 with `partialMatchFolder` as its state; the
result is the pair `(partialMatchFolder, exactMatchFolder)` at the loop exit. -/
def folderLoop (normalizedCore : Str) : List DirEntry → Str → Option (Str × Str)
  | [], partialMatchFolder => some (partialMatchFolder, [])
  | entry :: entries, partialMatchFolder =>
    match normalizedFolderName entry.filename with
    | none => none
    | some normalizedFolderName =>
      if normalizedCore = normalizedFolderName then some (partialMatchFolder, entry.path)
      else if strStartsWith normalizedFolderName normalizedCore then
        folderLoop normalizedCore entries entry.path
      else folderLoop normalizedCore entries partialMatchFolder

/-- Lines 164-185: the value of `subFolderPath` for the given sub-directories. -/
def chooseFolder (normalizedCore : Str) (subDirectories : List DirEntry) : Option Str :=
  match folderLoop normalizedCore subDirectories [] with
  | none => none
  | some (partialMatchFolder, exactMatchFolder) =>
    some (if exactMatchFolder.isEmpty then partialMatchFolder else exactMatchFolder)

/-- Lines 209-213 and 217-221: the string cut at its first `.`, if it has one. -/
def truncateAtDot (s : Str) : Str :=
  match strFind ['.'] s with
  | some dotIndex => s.take dotIndex
  | none => s

/-- The loop of lines 214-227: the value of `visualData.filePath` afterwards. -/
def matchLoop (gameFileName : Str) : List DirEntry → Str
  | [] => []
  | entry :: entries =>
    if truncateAtDot entry.filename = gameFileName then entry.path
    else matchLoop gameFileName entries

/-- Lines 189-229: the result for a chosen, non-empty `subFolderPath`. -/
def loadScreenshot (dirs : Listing) (game : GameInfoData) (subFolderPath : Str) :
    GameVisualData :=
  match dirs subFolderPath with
  | some entries =>
    let screenShots := stdSort (fun a b => decide (a.lastWriteTime > b.lastWriteTime))
      (entries.filter (fun entry => entry.extension = ".png".toList))
    if !screenShots.isEmpty then
      { active := true, filePath := matchLoop (truncateAtDot game.fileName) screenShots }
    else {}
  | none => {}

/-- Lines 143-185: the value of `subFolderPath`; `none` when the call does not
get that far (`directory_iterator(folderPath)` throws for a path that cannot be
listed). -/
def artFolder (dirs : Listing) (game : GameInfoData) (folderPath : Str) : Option Str :=
  match normalizedCore game.core, dirs folderPath with
  | some normalizedCore, some entries =>
    chooseFolder normalizedCore (entries.filter (fun entry => entry.isDirectory))
  | _, _ => none

/-- The function `loadGameVisualData(game, folderPath)`; `none` when the call
does not return a value. -/
def loadGameVisualData (dirs : Listing) (game : GameInfoData) (folderPath : Str) :
    Option GameVisualData :=
  if game.active && !game.coreName.isEmpty && !game.fileName.isEmpty then
    match artFolder dirs game folderPath with
    | some subFolderPath =>
      if !subFolderPath.isEmpty then some (loadScreenshot dirs game subFolderPath)
      else some {}
    | none => none
  else some {}

/-! ## Reference notions of the specification -/

/-- Whether a character is a space, a hyphen or an underscore. -/
def isSeparator (c : Char) : Bool := c = ' ' || c = '-' || c = '_'

/-- Normal form in the words of the specification: every space, hyphen and
underscore deleted, every letter uppercased. -/
def stripUpper (s : Str) : Str := (s.filter (fun c => !isSeparator c)).map toupper

/-! ## `main.cpp`: the navigation state -/

/-- Modelled from the spec: `enum.h`, which declares the enumeration `AppState`,
is not among the sources. An `AppState` is its integer value
(`static_cast<AppState>` can produce any); the three views are numbered in the
order in which the specification lists them, from 0, as `nextAppState` with
`numStates = 3` assumes. This is the view Picture-Recent. -/
def APPSTATE_RECENTVIEW : Int := 0

/-- Modelled from the spec: the view List-Recent of `enum.h`. -/
def APPSTATE_RECENTLIST : Int := 1

/-- Modelled from the spec: the view List-Favorite of `enum.h`. -/
def APPSTATE_FAVORITELIST : Int := 2

/-- The global variables of `main.cpp` that `setAppState`, `nextAppState` and
`updateAppState` read or write. -/
structure NavState where
  recentGameList : List GameInfoData := []
  favoriteGameList : List GameInfoData := []
  currentGameList : List GameInfoData := []
  selectedGame : GameInfoData := {}
  selectedGameVisual : GameVisualData := {}
  selectedGameIndex : Int := 0
  appState : Int := APPSTATE_RECENTVIEW
  isListView : Bool := false
  isPictureView : Bool := false
  listViewTitle : Str := []
  camX : ℚ := 0
  camY : ℚ := 0
  approachCamX : ℚ := 0
  approachCamY : ℚ := 0

/-- The function `setAppState(state)`. -/
def setAppState (st : NavState) (state : Int) : NavState :=
  let st : NavState :=
    { st with
      camY := -25, camX := 0, approachCamY := 0, approachCamX := 0, appState := state,
      selectedGameIndex := 0, selectedGame := {}, selectedGameVisual := {}, listViewTitle := [],
      isListView := false, isPictureView := false, currentGameList := [] }
  if st.appState = APPSTATE_RECENTVIEW then
    { st with isPictureView := true, currentGameList := st.recentGameList }
  else if st.appState = APPSTATE_FAVORITELIST ∨ st.appState = APPSTATE_RECENTLIST then
    { st with
      isListView := true
      listViewTitle :=
        if st.appState = APPSTATE_FAVORITELIST then "Favorites".toList else "Recent Games".toList
      currentGameList := stdSort (fun a b => decide (a.name < b.name))
        (if st.appState = APPSTATE_FAVORITELIST then st.favoriteGameList else st.recentGameList) }
  else st

/-- The function `nextAppState(i)`; `%` on `int` truncates towards zero. -/
def nextAppState (st : NavState) (i : Int) : NavState :=
  setAppState st (Int.tmod (st.appState + i) 3)

/-- The call `std::clamp(v, lo, hi)`. The standard leaves it undefined when
`hi < lo`, and libstdc++ asserts `!(hi < lo)`: the result is `none` then.
Otherwise it is `min(max(v, lo), hi)`, as libstdc++ computes it. -/
def stdClamp (v lo hi : Int) : Option Int :=
  if hi < lo then none else some (min (max v lo) hi)

/-- Conversion of an `int` to a `size_t` of `w` bits. -/
def toSizeT (w : Nat) (i : Int) : Nat := (i % 2 ^ w).toNat

/-- Conversion of a `size_t` to `int` by `static_cast<int>`. -/
def toInt (n : Nat) : Int := ((n : Int) + 2 ^ 31) % 2 ^ 32 - 2 ^ 31

/-- The operation `a % b` on `size_t`, which has no defined result for `b = 0`. -/
def sizeMod (a b : Nat) : Option Nat := if b = 0 then none else some (a % b)

/-- Lines 353-365 of `main.cpp`: the selection index and `camX` after the move;
`none` when the call of `std::clamp` on line 364 has no defined result. -/
def moveSelection (dirXInput dirYInput : Int) (st : NavState) : Option NavState :=
  if st.isPictureView then
    some
      { st with
        selectedGameIndex := st.selectedGameIndex + dirXInput
        camX := st.camX - ((dirXInput * 32 : Int) : ℚ) }
  else if st.isListView then
    match stdClamp (st.selectedGameIndex - dirYInput + dirXInput * 4) 0
        (toInt st.currentGameList.length - 1) with
    | some selectedGameIndex => some { st with selectedGameIndex := selectedGameIndex }
    | none => none
  else some st

/-- The index expression of line 367,
`(selectedGameIndex + currentGameList.size()) % currentGameList.size()`, computed
on a `size_t` of `w` bits. -/
def readIndex (w : Nat) (selectedGameIndex : Int) (size : Nat) : Option Nat :=
  sizeMod ((toSizeT w selectedGameIndex + size) % 2 ^ w) size

/-- Line 367: the value assigned to `selectedGame`; `none` when the expression
has no defined value (a modulo by zero or a read outside the vector). -/
def selectGame (w : Nat) (currentGameList : List GameInfoData) (selectedGameIndex : Int) :
    Option GameInfoData :=
  if !currentGameList.isEmpty then
    match readIndex w selectedGameIndex currentGameList.length with
    | some i => currentGameList.get? i
    | none => none
  else some {}

/-- The function `updateAppState()`, for a `size_t` of `w` bits, with the global
`MUOS_SAVE_DIR` and the inputs `dirXInput`, `dirYInput` as arguments; `none`
when the call does not return a defined value. -/
def updateAppState (w : Nat) (dirs : Listing) (saveDir : Str) (dirXInput dirYInput : Int)
    (st : NavState) : Option NavState :=
  match moveSelection dirXInput dirYInput st with
  | none => none
  | some st =>
    match selectGame w st.currentGameList st.selectedGameIndex with
    | none => none
    | some selectedGame =>
      match (if selectedGame.active && st.isPictureView
          then loadGameVisualData dirs selectedGame saveDir else some {}) with
      | none => none
      | some selectedGameVisual =>
        some { st with selectedGame := selectedGame, selectedGameVisual := selectedGameVisual }

/-! ## `main.cpp`: directional input and the camera -/

/-- The directional input polled in one iteration of the frame loop: for each
direction, whether the hat of the joystick or the key of the keyboard reports
it. -/
structure DirInput where
  right : Bool := false
  left : Bool := false
  down : Bool := false
  up : Bool := false
  deriving DecidableEq, Repr

/-- Lines 439-448: the value of `desiredXIndex`. -/
def desiredXIndex (input : DirInput) : Int :=
  if input.right then 1 else if input.left then -1 else 0

/-- Lines 440 and 449-456: the value of `desiredYIndex`. -/
def desiredYIndex (input : DirInput) : Int :=
  if input.down then -1 else if input.up then 1 else 0

/-- Whether a direction is held: the condition
`desiredXIndex != 0 || desiredYIndex != 0` of line 458. -/
def DirInput.held (input : DirInput) : Bool :=
  decide (desiredXIndex input ≠ 0 ∨ desiredYIndex input ≠ 0)

/-- What the block of lines 435-478 leaves behind: `dirXInput`, `dirYInput` and
`dasTimer`. -/
structure DasResult where
  dirXInput : Int
  dirYInput : Int
  dasTimer : ℚ

/-- Lines 435-478 of `main.cpp`, the auto-repeat block, for the current values
of `dasTimer` and `deltaTime`. -/
def dasTick (input : DirInput) (dasTimer deltaTime : ℚ) : DasResult :=
  if desiredXIndex input ≠ 0 ∨ desiredYIndex input ≠ 0 then
    if dasTimer ≤ 0 then
      { dirXInput := 0 + desiredXIndex input, dirYInput := 0 + desiredYIndex input,
        dasTimer := dasTimer + deltaTime }
    else if dasTimer > 2666 / 10000 then
      { dirXInput := 0 + desiredXIndex input, dirYInput := 0 + desiredYIndex input,
        dasTimer := dasTimer - 1 / 10 + deltaTime }
    else { dirXInput := 0, dirYInput := 0, dasTimer := dasTimer + deltaTime }
  else { dirXInput := 0, dirYInput := 0, dasTimer := 0 }

/-- Whether the block fired a move event: `updateAppState` sees a non-zero
`dirXInput` or `dirYInput`. -/
def DasResult.fired (r : DasResult) : Bool := r.dirXInput ≠ 0 || r.dirYInput ≠ 0

/-- One iteration of the frame loop as the auto-repeat block sees it: the input
polled and the value `deltaTime` has in that iteration. -/
structure Tick where
  input : DirInput
  deltaTime : ℚ

/-- The number of move events fired by the given ticks, run in sequence from
the timer value `dasTimer`, counting only the ticks that start at an accumulated
time of at most `limit`; `elapsed` is the time accumulated before the first of
them. -/
def countFires (limit : ℚ) (dasTimer elapsed : ℚ) : List Tick → Nat
  | [] => 0
  | tick :: ticks =>
    (if (dasTick tick.input dasTimer tick.deltaTime).fired ∧ elapsed ≤ limit then 1 else 0)
      + countFires limit (dasTick tick.input dasTimer tick.deltaTime).dasTimer
          (elapsed + tick.deltaTime) ticks

/-- Modelled from the spec: `helpers/mathHelpers.h` is not among the sources;
`lerp(a, b, t) = a + (b - a) * t`. -/
def lerp (a b t : ℚ) : ℚ := a + (b - a) * t

/-- Modelled from the spec: `helpers/mathHelpers.h` is not among the sources;
`clamp(v, lo, hi)` is `lo` below `lo`, `hi` above `hi` and `v` in between. -/
def clamp (v lo hi : ℚ) : ℚ := if v < lo then lo else if hi < v then hi else v

/-- Lines 532-536 of `main.cpp`: the camera update of one iteration. -/
def cameraStep (st : NavState) : NavState :=
  let st : NavState := { st with camY := lerp st.camY st.approachCamY (1 / 10) }
  let st : NavState :=
    { st with camY := clamp st.camY (st.approachCamY - 200) (st.approachCamY + 200) }
  let st : NavState := { st with camX := lerp st.camX st.approachCamX (1 / 10) }
  { st with camX := clamp st.camX (st.approachCamX - 200) (st.approachCamX + 200) }

/-! ## `mrenderer.h`: the texture cache -/

/-- An `SDL_Surface*` that is not null: a handle and the fields `w`, `h`. -/
structure Surface where
  handle : Nat
  w : Int
  h : Int
  deriving DecidableEq, Repr

/-- The record `TextureData`; an `SDL_Texture*` that is not null is a handle. -/
structure TextureData where
  filename : Str
  surface : Surface
  texture : Nat
  width : Int
  height : Int
  aspect : ℚ
  deriving DecidableEq

/-- The two library calls of `getData` as they answer at the time of the call:
`none` is a null pointer. -/
structure ImageLib where
  IMG_Load : Str → Option Surface
  SDL_CreateTextureFromSurface : Surface → Option Nat

/-- The member `textureMap`, an `unordered_map` from file names to records. -/
abbrev TextureMap := Str → Option TextureData

/-- The assignment `textureMap[filename] = data`. -/
def TextureMap.insert (textureMap : TextureMap) (filename : Str) (data : TextureData) :
    TextureMap :=
  fun p => if p = filename then some data else textureMap p

/-- The member function `getData(filename)`: the map afterwards and the record
pointed to by the result, `none` for `nullptr`. -/
def getData (lib : ImageLib) (textureMap : TextureMap) (filename : Str) :
    TextureMap × Option TextureData :=
  match textureMap filename with
  | some data => (textureMap, some data)
  | none =>
    match lib.IMG_Load filename with
    | none => (textureMap, none)
    | some surface =>
      match lib.SDL_CreateTextureFromSurface surface with
      | none => (textureMap, none)
      | some texture =>
        let data : TextureData :=
          { filename := filename, surface := surface, texture := texture, width := surface.w,
            height := surface.h, aspect := (surface.w : ℚ) / (surface.h : ℚ) }
        (textureMap.insert filename data, some data)

/-- The member function `get(filename)`: the map afterwards and the texture,
`none` for `nullptr`. -/
def get (lib : ImageLib) (textureMap : TextureMap) (filename : Str) :
    TextureMap × Option Nat :=
  match getData lib textureMap filename with
  | (textureMap, some data) => (textureMap, some data.texture)
  | (textureMap, none) => (textureMap, none)

/-! ## `mrenderer.h`: `drawPreserveAspect` -/

/-- The arguments of a call
`drawScaled(filename, centerX, centerY, w, h, rotation, scale)`. -/
structure DrawScaledCall where
  filename : Str
  centerX : ℚ
  centerY : ℚ
  w : ℚ
  h : ℚ
  rotation : ℚ
  scale : ℚ

/-- The member function
`drawPreserveAspect(filename, centerX, centerY, w, h, rotation, scale)`: the map
after its `getData` and the call of `drawScaled` it makes, `none` when it makes
none. -/
def drawPreserveAspect (lib : ImageLib) (textureMap : TextureMap) (filename : Str)
    (centerX centerY w h rotation scale : ℚ) : TextureMap × Option DrawScaledCall :=
  match getData lib textureMap filename with
  | (textureMap, some data) =>
    if data.aspect < 1 then
      (textureMap, some
        { filename := filename, centerX := centerX, centerY := centerY, w := w,
          h := w / data.aspect, rotation := rotation, scale := scale })
    else
      (textureMap, some
        { filename := filename, centerX := centerX, centerY := centerY, w := h * data.aspect,
          h := h, rotation := rotation, scale := scale })
  | (textureMap, none) => (textureMap, none)

/-! ## `main.cpp`: the write-back path and the frame loop -/

/-- The call `s.find_last_of(chars)` of `std::string`: the position of the last
character of `s` that is one of `chars`, `none` for `npos`. -/
def findLastOf (chars : Str) : Str → Option Nat
  | [] => none
  | c :: cs =>
    match findLastOf chars cs with
    | some i => some (i + 1)
    | none => if c ∈ chars then some 0 else none

/-- The call `s.substr(0, pos)`, `none` being `npos`: the whole string then. -/
def substrTo (s : Str) (pos : Option Nat) : Str :=
  match pos with
  | some n => s.take n
  | none => s

/-- Line 626 of `main.cpp`: the initial value of `historyPath` for the history
directory `dir` and the display name `name`. -/
def historyPathInitial (dir name : Str) : Str :=
  dir ++ "/".toList ++ substrTo name (findLastOf ".".toList name) ++ ".cfg".toList

/-- Lines 626-631 of `main.cpp`: the value of `historyPath` that is passed to
`writeGameInfo`. -/
def historyPath (dir name : Str) : Str :=
  match findLastOf ".zip".toList (historyPathInitial dir name) with
  | some zipPos => substrTo (historyPathInitial dir name) (some zipPos) ++ ".cfg".toList
  | none => historyPathInitial dir name

/-- One iteration of the frame loop of `startSDLPhase` as the auto-repeat block
sees it: the input polled at its start and the time measured at its end
(lines 527-528), which is the `deltaTime` of the next iteration. -/
structure Frame where
  input : DirInput
  measured : ℚ

/-- The frame loop of `startSDLPhase` restricted to the auto-repeat block and
the measurement of `deltaTime`: the result of the block in each iteration, from
the given values of `dasTimer` and `deltaTime`. -/
def runFrames (dasTimer deltaTime : ℚ) : List Frame → List DasResult
  | [] => []
  | frame :: frames =>
    dasTick frame.input dasTimer deltaTime
      :: runFrames (dasTick frame.input dasTimer deltaTime).dasTimer frame.measured frames

/-- The frame loop from the initial values of lines 395-396, `dasTimer = 0.0`
and `deltaTime = 0.0`. -/
def startFrames (frames : List Frame) : List DasResult := runFrames 0 0 frames

/-- The value of `dasTimer` after the given ticks, run in sequence. -/
def timerAfter (dasTimer : ℚ) : List Tick → ℚ
  | [] => dasTimer
  | tick :: ticks => timerAfter (dasTick tick.input dasTimer tick.deltaTime).dasTimer ticks

/-- Whether the block takes its repeat branch (`dasTimer > 0.2666`, lines
466-471): it fires and the timer was positive. -/
def repeatFired (input : DirInput) (dasTimer deltaTime : ℚ) : Bool :=
  (dasTick input dasTimer deltaTime).fired && decide (0 < dasTimer)

/-- The number of repeat fires over the given ticks, run in sequence. -/
def countRepeats (dasTimer : ℚ) : List Tick → Nat
  | [] => 0
  | tick :: ticks =>
    (if repeatFired tick.input dasTimer tick.deltaTime then 1 else 0)
      + countRepeats (dasTick tick.input dasTimer tick.deltaTime).dasTimer ticks

/-! ## Reference notions of the specification, continued -/

/-- The display name with the text from its last `.` onward removed, the name
itself when it has no `.`. -/
def stem (name : Str) : Str :=
  if '.' ∈ name then ((name.reverse.dropWhile fun c => decide (c ≠ '.')).drop 1).reverse
  else name

/-! ## Auxiliary -/

/-- The fields after the loop of `loadGameInfo` has consumed the given lines,
the first of them being line number `lineCount`. -/
def assignFrom (game : GameInfoData) (lineCount : Nat) : List Str → GameInfoData
  | [] => game
  | l :: ls => assignFrom (assignLine game lineCount l) (lineCount + 1) ls

/-! ## Concrete inputs -/

/-- A file system with no file, in which every path can be created. -/
def emptyFS : FileSystem := { files := fun _ => none, writable := fun _ => true }


/-- The lines of a record file that stops after the fifth field. -/
def shortLines : List Str :=
  ["Game".toList, "mgba_libretro.so".toList, "GBA".toList, "3".toList, "/mnt/mmc".toList]

/-- A file system whose only file is `r.cfg`, made of `shortLines`. -/
def shortFS : FileSystem := emptyFS.store "r.cfg".toList (unlines shortLines)

/-- A record with all seven fields populated. -/
def sampleGame : GameInfoData :=
  { name := "Game.gba".toList, core := "mgba_libretro.so".toList, coreName := "GBA".toList,
    number := "3".toList, drive := "/mnt/mmc".toList, folder := "/roms".toList,
    fileName := "Game.gba".toList }

/-- A record with all seven fields populated whose display name holds a newline. -/
def newlineGame : GameInfoData := { sampleGame with name := "Ga\nme".toList }

/-- The entries of the catalog directory `d`: two records of a libretro core,
a text file, a record of another loader and a record that cannot be opened. -/
def catalogEntries : List DirEntry :=
  [ { path := "d/a.cfg".toList, filename := "a.cfg".toList, extension := ".cfg".toList,
      isDirectory := false, lastWriteTime := 0 },
    { path := "d/b.cfg".toList, filename := "b.cfg".toList, extension := ".cfg".toList,
      isDirectory := false, lastWriteTime := 0 },
    { path := "d/c.txt".toList, filename := "c.txt".toList, extension := ".txt".toList,
      isDirectory := false, lastWriteTime := 0 },
    { path := "d/d.cfg".toList, filename := "d.cfg".toList, extension := ".cfg".toList,
      isDirectory := false, lastWriteTime := 0 },
    { path := "d/e.cfg".toList, filename := "e.cfg".toList, extension := ".cfg".toList,
      isDirectory := false, lastWriteTime := 0 } ]

/-- The listing in which `d` holds `catalogEntries`. -/
def catalogDirs : Listing := fun p => if p = "d".toList then some catalogEntries else none

/-- The files behind `catalogEntries`; `d/e.cfg` cannot be opened. -/
def catalogFS : FileSystem :=
  (((emptyFS.store "d/a.cfg".toList (unlines ["Zed".toList, "snes9x_libretro.so".toList])).store
    "d/b.cfg".toList (unlines ["Abe".toList, "mgba_libretro.so".toList])).store
    "d/c.txt".toList (unlines ["Txt".toList, "fceumm_libretro.so".toList])).store
    "d/d.cfg".toList (unlines ["Ext".toList, "external".toList])

/-- A sub-directory of the art root `art` with the given name. -/
def artDir (name : Str) : DirEntry :=
  { path := "art/".toList ++ name, filename := name, extension := [], isDirectory := true,
    lastWriteTime := 0 }

/-- Sub-directories in which the exact match `m-GBA` stands between two
folders that only start with `MGBA`. -/
def exactDirs : List DirEntry :=
  [artDir "mGBA-old".toList, artDir "m-GBA".toList, artDir "mgba_2".toList]

/-- Sub-directories without an exact match for `MGBA`, two of which start
with it. -/
def prefixDirs : List DirEntry :=
  [artDir "mGBA-old".toList, artDir "snes9x".toList, artDir "mgba_2".toList,
   artDir "Gambatte".toList]

/-- A file of the screenshot folder `art/mGBA`. -/
def shot (name ext : Str) (time : Int) : DirEntry :=
  { path := "art/mGBA/".toList ++ name, filename := name, extension := ext,
    isDirectory := false, lastWriteTime := time }

/-- The screenshots of `art/mGBA`: two of `Game`, the later one listed second,
one of another game which is the newest file, and a text file. -/
def shots : List DirEntry :=
  [shot "Game.state1.png".toList ".png".toList 10, shot "Game.state2.png".toList ".png".toList 30,
   shot "Other.state.png".toList ".png".toList 50, shot "Game.txt".toList ".txt".toList 70]

/-- The art root `art` with the folders `snes9x` and `mGBA`, the latter holding
`shots`. -/
def artListing : Listing := fun p =>
  if p = "art".toList then some [artDir "snes9x".toList, artDir "mGBA".toList]
  else if p = "art/mGBA".toList then some shots
  else if p = "art/snes9x".toList then some []
  else none

/-- An active record of the core `mgba_libretro.so` with the ROM `Game.gba`. -/
def activeGame : GameInfoData := { sampleGame with active := true }

/-- An active record of the same core whose ROM `Zelda.gba` has no screenshot. -/
def zeldaGame : GameInfoData := { activeGame with fileName := "Zelda.gba".toList }

/-- A recent list of three active records, named `A`, `B` and `C`. -/
def threeGames : List GameInfoData :=
  [{ activeGame with name := "A".toList }, { activeGame with name := "B".toList },
   { activeGame with name := "C".toList }]

/-- The navigation state after `setAppState(APPSTATE_RECENTVIEW)` with
`threeGames` as the recent list. -/
def pictureStart : NavState :=
  setAppState { recentGameList := threeGames } APPSTATE_RECENTVIEW

/-- A navigation state in list view over five records, the selection at 2. -/
def listState : NavState :=
  { currentGameList := [sampleGame, activeGame, zeldaGame, newlineGame, sampleGame],
    isListView := true, selectedGameIndex := 2 }

/-- One tick of the frame loop with `left` pressed: `updateAppState` with
`dirXInput = -1`, on a 64-bit `size_t`, the art root being `art`. -/
def pressLeft (st : NavState) : Option NavState :=
  updateAppState 64 artListing "art".toList (-1) 0 st

/-- A tick with `right` held and the given `deltaTime`. -/
def rightTick (deltaTime : ℚ) : Tick := { input := { right := true }, deltaTime := deltaTime }

/-- A direction held over 19 ticks of 16 ms, 0.304 s in all. -/
def steadyHold : List Tick := List.replicate 19 (rightTick (16 / 1000))

/-- A direction held over 3 ticks of 16 ms, which start at 0, 0.016 and 0.032 s. -/
def shortHold : List Tick := List.replicate 3 (rightTick (16 / 1000))

/-- A surface of 640 by 480 pixels. -/
def sampleSurface : Surface := { handle := 1, w := 640, h := 480 }

/-- An image library in which no file can be decoded. -/
def failingLib : ImageLib :=
  { IMG_Load := fun _ => none, SDL_CreateTextureFromSurface := fun _ => none }

/-- An image library in which every file decodes to `sampleSurface` and is
uploaded as texture 7. -/
def workingLib : ImageLib :=
  { IMG_Load := fun _ => some sampleSurface, SDL_CreateTextureFromSurface := fun _ => some 7 }

/-- The texture cache before the first request. -/
def emptyCache : TextureMap := fun _ => none

/-- A portrait surface of 480 by 640 pixels. -/
def portraitSurface : Surface := { handle := 2, w := 480, h := 640 }

/-- An image library in which every file decodes to `portraitSurface` and is
uploaded as texture 8. -/
def portraitLib : ImageLib :=
  { IMG_Load := fun _ => some portraitSurface, SDL_CreateTextureFromSurface := fun _ => some 8 }

/-- The first two iterations of the frame loop with `right` held in both, each
lasting 16 ms. -/
def heldFromStart : List Frame :=
  [{ input := { right := true }, measured := 16 / 1000 },
   { input := { right := true }, measured := 16 / 1000 }]

/-! ## Record files: `loadGameInfo` and `writeGameInfo` -/

theorem getlineAux_rest_length (d c : Char) (cs : Str) :
    (getlineAux d (c :: cs)).2.length ≤ cs.length := by
  induction cs generalizing c with
  | nil => by_cases h : c = d <;> simp [getlineAux, h]
  | cons x xs ih =>
    by_cases h : c = d
    · simp [getlineAux, h]
    · have := ih x
      simp only [getlineAux, h, if_false] at this ⊢
      simp only [List.length_cons]
      omega

/-- The loop of `loadGameInfo` ends before its iteration bound is reached: any
bound above the length of the stream gives the same record. -/
theorem readLines_fuel (f1 : Nat) :
    ∀ (f2 : Nat) (stream : Str) (k : Nat) (game : GameInfoData),
      stream.length < f1 → stream.length < f2 →
      readLines f1 stream k game = readLines f2 stream k game := by
  induction f1 with
  | zero => intro f2 stream k game h; simp at h
  | succ n ih =>
    intro f2 stream k game h1 h2
    cases f2 with
    | zero => simp at h2
    | succ m =>
      cases stream with
      | nil => rfl
      | cons c cs =>
        have hlen := getlineAux_rest_length '\n' c cs
        simp only [List.length_cons] at h1 h2
        simp only [readLines, getline]
        exact ih m _ _ _ (by omega) (by omega)

/-- The loop of `strSplit` ends before its iteration bound is reached. -/
theorem splitLoop_fuel (d : Char) (f1 : Nat) :
    ∀ (f2 : Nat) (ss : Str) (tokens : List Str),
      ss.length < f1 → ss.length < f2 →
      splitLoop d f1 ss tokens = splitLoop d f2 ss tokens := by
  induction f1 with
  | zero => intro f2 ss tokens h; simp at h
  | succ n ih =>
    intro f2 ss tokens h1 h2
    cases f2 with
    | zero => simp at h2
    | succ m =>
      cases ss with
      | nil => rfl
      | cons c cs =>
        have hlen := getlineAux_rest_length d c cs
        simp only [List.length_cons] at h1 h2
        simp only [splitLoop, getline]
        exact ih m _ _ (by omega) (by omega)

theorem getlineAux_line (l rest : Str) (h : '\n' ∉ l) :
    getlineAux '\n' (l ++ '\n' :: rest) = (l, rest) := by
  induction l with
  | nil => simp [getlineAux]
  | cons c cs ih =>
    have hc : c ≠ '\n' := fun e => h (by simp [e])
    have hcs : '\n' ∉ cs := fun e => h (by simp [e])
    simp [getlineAux, hc, ih hcs]

theorem readLines_unlines (lines : List Str) :
    ∀ (fuel lineCount : Nat) (game : GameInfoData), (∀ l ∈ lines, '\n' ∉ l) →
      lines.length < fuel →
      readLines fuel (unlines lines) lineCount game = assignFrom game lineCount lines := by
  induction lines with
  | nil =>
    intro fuel lineCount game _ hfuel
    cases fuel with
    | zero => simp at hfuel
    | succ n => simp [readLines, unlines, getline, assignFrom]
  | cons l ls ih =>
    intro fuel lineCount game hl hfuel
    cases fuel with
    | zero => simp at hfuel
    | succ n =>
      have h1 : '\n' ∉ l := hl l (by simp)
      have h2 : ∀ x ∈ ls, '\n' ∉ x := fun x hx => hl x (by simp [hx])
      have hn : ls.length < n := by simpa using hfuel
      have hne : l ++ '\n' :: unlines ls ≠ [] := by simp
      cases hs : l ++ '\n' :: unlines ls with
      | nil => exact absurd hs hne
      | cons c cs =>
        simp only [readLines, unlines, hs, getline, assignFrom]
        rw [← hs, getlineAux_line l _ h1]
        exact ih n (lineCount + 1) _ h2 hn

theorem length_le_unlines (lines : List Str) : lines.length ≤ (unlines lines).length := by
  induction lines with
  | nil => simp [unlines]
  | cons l ls ih => simp [unlines]; omega

theorem assignLine_ge (game : GameInfoData) (k : Nat) (l : Str) (h : 7 ≤ k) :
    assignLine game k l = game := by
  obtain ⟨m, rfl⟩ : ∃ m, k = m + 7 := ⟨k - 7, by omega⟩
  rfl

theorem assignFrom_ge (lines : List Str) :
    ∀ (game : GameInfoData) (k : Nat), 7 ≤ k → assignFrom game k lines = game := by
  induction lines with
  | nil => intro game k _; rfl
  | cons l ls ih =>
    intro game k hk
    simp only [assignFrom, assignLine_ge game k l hk]
    exact ih game (k + 1) (by omega)

theorem assignFrom_zero (lines : List Str) :
    assignFrom { active := true } 0 lines = parseRecord lines := by
  match lines with
  | [] => rfl
  | [_] => rfl
  | [_, _] => rfl
  | [_, _, _] => rfl
  | [_, _, _, _] => rfl
  | [_, _, _, _, _] => rfl
  | [_, _, _, _, _, _] => rfl
  | a :: b :: c :: d :: e :: f :: g :: rest =>
    simp only [assignFrom, assignLine]
    rw [assignFrom_ge rest _ 7 (le_refl 7)]
    rfl

theorem parseRecord_take (lines : List Str) : parseRecord (lines.take 7) = parseRecord lines := by
  match lines with
  | [] => rfl
  | [_] => rfl
  | [_, _] => rfl
  | [_, _, _] => rfl
  | [_, _, _, _] => rfl
  | [_, _, _, _, _] => rfl
  | [_, _, _, _, _, _] => rfl
  | a :: b :: c :: d :: e :: f :: g :: rest => rfl

/-- A file made of newline-terminated lines is read as its reference parse. -/
theorem loadGameInfo_unlines (fs : FileSystem) (filePath : Str) (lines : List Str)
    (hopen : fs.files filePath = some (unlines lines)) (hlines : ∀ l ∈ lines, '\n' ∉ l) :
    loadGameInfo fs filePath = parseRecord lines := by
  have hlen := length_le_unlines lines
  simp only [loadGameInfo, hopen]
  rw [readLines_unlines lines _ 0 _ hlines (by omega)]
  exact assignFrom_zero lines

theorem assignLine_active (game : GameInfoData) (k : Nat) (l : Str) :
    (assignLine game k l).active = game.active := by
  match k with
  | 0 | 1 | 2 | 3 | 4 | 5 | 6 => rfl
  | n + 7 => rfl

theorem readLines_active (fuel : Nat) :
    ∀ (stream : Str) (k : Nat) (game : GameInfoData),
      (readLines fuel stream k game).active = game.active := by
  induction fuel with
  | zero => intro stream k game; rfl
  | succ n ih =>
    intro stream k game
    cases stream with
    | nil => rfl
    | cons c cs =>
      simp only [readLines, getline]
      rw [ih, assignLine_active]

theorem serialize_eq (game : GameInfoData) :
    serialize game = unlines [game.name, game.core, game.coreName, game.number, game.drive,
      game.folder, game.fileName] := by
  simp [serialize, unlines]

/-- C2: `loadGameInfo` on an openable file made of newline-terminated lines
equals the reference parse: the record is active, field `i` of the seven is
line `i` when there is one and empty otherwise, lines from index 7 on have no
effect, and a file of five lines leaves `folder` and `fileName` empty. -/
theorem loadGameInfo_eq_parseRecord (fs : FileSystem) (filePath : Str) (lines : List Str)
    (hopen : fs.files filePath = some (unlines lines)) (hlines : ∀ l ∈ lines, '\n' ∉ l) :
    loadGameInfo fs filePath = parseRecord lines
      ∧ loadGameInfo fs filePath = parseRecord (lines.take 7)
      ∧ (loadGameInfo fs filePath).active = true
      ∧ (lines.length = 5 →
          (loadGameInfo fs filePath).folder = [] ∧ (loadGameInfo fs filePath).fileName = []) := by
  have h := loadGameInfo_unlines fs filePath lines hopen hlines
  refine ⟨h, by rw [h, parseRecord_take], by rw [h]; rfl, ?_⟩
  intro h5
  rw [h]
  match lines, h5 with
  | [_, _, _, _, _], _ => exact ⟨rfl, rfl⟩

/-- Witness of C2 on a file of five lines. -/
theorem loadGameInfo_eq_parseRecord_witness :
    shortFS.files "r.cfg".toList = some (unlines shortLines)
      ∧ (∀ l ∈ shortLines, '\n' ∉ l)
      ∧ loadGameInfo shortFS "r.cfg".toList
          = { active := true, name := "Game".toList, core := "mgba_libretro.so".toList,
              coreName := "GBA".toList, number := "3".toList, drive := "/mnt/mmc".toList,
              folder := [], fileName := [] }
      ∧ loadGameInfo shortFS "r.cfg".toList = parseRecord shortLines :=
  ⟨by decide, by decide, by decide,
    (loadGameInfo_eq_parseRecord shortFS "r.cfg".toList shortLines (by decide) (by decide)).1⟩

/-- C1, counterexample: a record whose display name holds a newline is not read
back as it was written. -/
theorem roundTrip_counterexample :
    loadGameInfo (writeGameInfo emptyFS "r.cfg".toList newlineGame).1 "r.cfg".toList
      ≠ { newlineGame with active := true } := by
  decide

/-- C1, amended: for a path that can be opened for writing and a record whose
seven fields hold no newline, `writeGameInfo` followed by `loadGameInfo` on the
same path yields the seven written fields and `active = true`. -/
theorem roundTrip (fs : FileSystem) (filePath : Str) (game : GameInfoData)
    (hw : fs.writable filePath = true)
    (hn : '\n' ∉ game.name ∧ '\n' ∉ game.core ∧ '\n' ∉ game.coreName ∧ '\n' ∉ game.number
      ∧ '\n' ∉ game.drive ∧ '\n' ∉ game.folder ∧ '\n' ∉ game.fileName) :
    loadGameInfo (writeGameInfo fs filePath game).1 filePath = { game with active := true } := by
  obtain ⟨h0, h1, h2, h3, h4, h5, h6⟩ := hn
  have hfile : (writeGameInfo fs filePath game).1.files filePath
      = some (unlines [game.name, game.core, game.coreName, game.number, game.drive,
          game.folder, game.fileName]) := by
    simp [writeGameInfo, hw, FileSystem.store, serialize_eq]
  rw [loadGameInfo_unlines _ filePath _ hfile (by simp [h0, h1, h2, h3, h4, h5, h6])]
  rfl

/-- Witness of the amended C1. -/
theorem roundTrip_witness :
    emptyFS.writable "r.cfg".toList = true
      ∧ ('\n' ∉ sampleGame.name ∧ '\n' ∉ sampleGame.core ∧ '\n' ∉ sampleGame.coreName
        ∧ '\n' ∉ sampleGame.number ∧ '\n' ∉ sampleGame.drive ∧ '\n' ∉ sampleGame.folder
        ∧ '\n' ∉ sampleGame.fileName)
      ∧ loadGameInfo (writeGameInfo emptyFS "r.cfg".toList sampleGame).1 "r.cfg".toList
          = { sampleGame with active := true } :=
  ⟨by decide, by decide, roundTrip emptyFS "r.cfg".toList sampleGame (by decide) (by decide)⟩

/-! ## `std::sort` -/

theorem sortedInsert_perm {α : Type} (comp : α → α → Bool) (x : α) (l : List α) :
    (sortedInsert comp x l).Perm (x :: l) := by
  induction l with
  | nil => exact List.Perm.refl _
  | cons y ys ih =>
    by_cases h : comp x y = true
    · simp [sortedInsert, h]
    · simp only [sortedInsert, h]
      exact (ih.cons y).trans (List.Perm.swap x y ys)

theorem stdSort_perm {α : Type} (comp : α → α → Bool) (l : List α) :
    (stdSort comp l).Perm l := by
  induction l with
  | nil => exact List.Perm.refl _
  | cons x xs ih => exact (sortedInsert_perm comp x _).trans (ih.cons x)

theorem sortedInsert_pairwise {α : Type} (comp : α → α → Bool)
    (hasymm : ∀ a b, comp a b = true → comp b a = false)
    (htrans : ∀ a b c, comp a b = true → comp b c = true → comp a c = true)
    (x : α) (l : List α) (hl : l.Pairwise (fun a b => comp b a = false)) :
    (sortedInsert comp x l).Pairwise (fun a b => comp b a = false) := by
  induction l with
  | nil => simp [sortedInsert]
  | cons y ys ih =>
    rw [List.pairwise_cons] at hl
    by_cases h : comp x y = true
    · simp only [sortedInsert, h, if_true]
      refine List.pairwise_cons.2 ⟨?_, List.pairwise_cons.2 hl⟩
      intro z hz
      rcases List.mem_cons.1 hz with rfl | hz
      · exact hasymm _ _ h
      · cases hzx : comp z x with
        | false => rfl
        | true =>
          have := htrans z x y hzx h
          rw [hl.1 z hz] at this
          cases this
    · simp only [sortedInsert, h]
      refine List.pairwise_cons.2 ⟨?_, ih hl.2⟩
      intro z hz
      rcases List.mem_cons.1 ((sortedInsert_perm comp x ys).mem_iff.1 hz) with rfl | hz
      · simpa using h
      · exact hl.1 z hz

theorem stdSort_pairwise {α : Type} (comp : α → α → Bool)
    (hasymm : ∀ a b, comp a b = true → comp b a = false)
    (htrans : ∀ a b c, comp a b = true → comp b c = true → comp a c = true) (l : List α) :
    (stdSort comp l).Pairwise (fun a b => comp b a = false) := by
  induction l with
  | nil => simp [stdSort]
  | cons x xs ih => exact sortedInsert_pairwise comp hasymm htrans x _ ih

/-! ## `strEndsWith`, `strStartsWith` -/

theorem strEndsWith_iff (str suffix : Str) : strEndsWith str suffix = true ↔ suffix <:+ str := by
  unfold strEndsWith
  by_cases h : str.length < suffix.length
  · simp only [h, if_true]
    constructor
    · intro hf; cases hf
    · intro hs; have := hs.length_le; omega
  · simp only [h, if_false, decide_eq_true_eq, List.suffix_iff_eq_drop]
    exact eq_comm

theorem strStartsWith_iff (str pre : Str) : strStartsWith str pre = true ↔ pre <+: str := by
  unfold strStartsWith
  by_cases h : str.length < pre.length
  · simp only [h, if_true]
    constructor
    · intro hf; cases hf
    · intro hs; have := hs.length_le; omega
  · simp only [h, if_false, decide_eq_true_eq, List.prefix_iff_eq_take]
    exact eq_comm

/-! ## `loadGameListAtPath` -/

theorem scanLoop_eq (fs : FileSystem) (entries : List DirEntry) :
    ∀ games : List GameInfoData, scanLoop fs entries games = games ++
      ((entries.filter (fun e => e.extension = ".cfg".toList)).map
        (fun e => loadGameInfo fs e.path)).filter
        (fun g => strEndsWith g.core "libretro.so".toList) := by
  induction entries with
  | nil => intro games; simp [scanLoop]
  | cons e es ih =>
    intro games
    by_cases h1 : e.extension = ".cfg".toList
    · by_cases h2 : strEndsWith (loadGameInfo fs e.path).core "libretro.so".toList = true
      · rw [scanLoop, if_pos h1, if_pos h2, ih, List.filter_cons_of_pos (p := fun e : DirEntry => decide (e.extension = ".cfg".toList))
            (decide_eq_true h1),
          List.map_cons,
          List.filter_cons_of_pos (p := fun g : GameInfoData => strEndsWith g.core "libretro.so".toList)
            h2, List.append_assoc]
        rfl
      · rw [scanLoop, if_pos h1, if_neg h2, ih, List.filter_cons_of_pos (p := fun e : DirEntry => decide (e.extension = ".cfg".toList))
            (decide_eq_true h1),
          List.map_cons,
          List.filter_cons_of_neg (p := fun g : GameInfoData => strEndsWith g.core "libretro.so".toList)
            h2]
    · rw [scanLoop, if_neg h1, ih,
        List.filter_cons_of_neg (p := fun e : DirEntry => decide (e.extension = ".cfg".toList))
          (by simpa using h1)]

theorem loadGameInfo_active_of_core (fs : FileSystem) (filePath : Str)
    (h : (loadGameInfo fs filePath).core ≠ []) : (loadGameInfo fs filePath).active = true := by
  unfold loadGameInfo at *
  cases hf : fs.files filePath with
  | none => rw [hf] at h; exact absurd rfl h
  | some content => simp only [readLines_active]

/-- C3: for an existing directory, `loadGameListAtPath` returns a permutation
of the records loaded from its `.cfg` entries whose core-loader identifier ends
with `libretro.so`; every returned record is active and has such an identifier;
and the list is in non-decreasing lexicographic order of that identifier. -/
theorem loadGameListAtPath_sorted_perm (fs : FileSystem) (dirs : Listing) (folderPath : Str)
    (entries : List DirEntry) (hdir : dirs folderPath = some entries) :
    (loadGameListAtPath fs dirs folderPath).Perm
        (((entries.filter (fun e => e.extension = ".cfg".toList)).map
          (fun e => loadGameInfo fs e.path)).filter
          (fun g => decide ("libretro.so".toList <:+ g.core)))
      ∧ (∀ g ∈ loadGameListAtPath fs dirs folderPath,
          g.active = true ∧ "libretro.so".toList <:+ g.core)
      ∧ (loadGameListAtPath fs dirs folderPath).Pairwise (fun a b => ¬ b.core < a.core) := by
  have hfilter : (fun g : GameInfoData => decide ("libretro.so".toList <:+ g.core))
      = fun g => strEndsWith g.core "libretro.so".toList := by
    funext g
    by_cases h : "libretro.so".toList <:+ g.core
    · rw [(strEndsWith_iff _ _).2 h]; simpa using h
    · have : strEndsWith g.core "libretro.so".toList = false := by
        cases hs : strEndsWith g.core "libretro.so".toList with
        | false => rfl
        | true => exact absurd ((strEndsWith_iff _ _).1 hs) h
      rw [this]; simpa using h
  have hperm : (loadGameListAtPath fs dirs folderPath).Perm
      (((entries.filter (fun e => e.extension = ".cfg".toList)).map
        (fun e => loadGameInfo fs e.path)).filter
        (fun g => strEndsWith g.core "libretro.so".toList)) := by
    simp only [loadGameListAtPath, hdir]
    have := stdSort_perm (fun a b : GameInfoData => decide (a.core < b.core))
      (scanLoop fs entries [])
    rw [scanLoop_eq, List.nil_append] at this ⊢
    exact this
  refine ⟨by rw [hfilter]; exact hperm, ?_, ?_⟩
  · intro g hg
    have hmem := hperm.mem_iff.1 hg
    rw [List.mem_filter] at hmem
    obtain ⟨hmap, hends⟩ := hmem
    have hsuf := (strEndsWith_iff _ _).1 hends
    obtain ⟨e, -, rfl⟩ := List.mem_map.1 hmap
    refine ⟨loadGameInfo_active_of_core fs e.path ?_, hsuf⟩
    intro hnil
    rw [hnil] at hsuf
    have := hsuf.length_le
    simp at this
  · simp only [loadGameListAtPath, hdir]
    have := stdSort_pairwise (fun a b : GameInfoData => decide (a.core < b.core))
      (fun a b h => by
        have h1 : a.core < b.core := by simpa using h
        simpa using lt_asymm h1)
      (fun a b c h1 h2 => by
        have h1 : a.core < b.core := by simpa using h1
        have h2 : b.core < c.core := by simpa using h2
        simpa using lt_trans h1 h2)
      (scanLoop fs entries [])
    refine this.imp ?_
    intro a b hab
    simpa using hab

/-- Witness of C3 on a directory of five entries, two of which are kept. -/
theorem loadGameListAtPath_sorted_perm_witness :
    catalogDirs "d".toList = some catalogEntries
      ∧ loadGameListAtPath catalogFS catalogDirs "d".toList
          = [parseRecord ["Abe".toList, "mgba_libretro.so".toList],
             parseRecord ["Zed".toList, "snes9x_libretro.so".toList]]
      ∧ (loadGameListAtPath catalogFS catalogDirs "d".toList).Pairwise
          (fun a b => ¬ b.core < a.core) :=
  ⟨rfl, by decide,
    (loadGameListAtPath_sorted_perm catalogFS catalogDirs "d".toList catalogEntries rfl).2.2⟩

/-! ## Characters and `strReplaceAll` -/

theorem toupper_cases (P : Char → Char → Prop) (hid : ∀ c, P c c)
    (hlow : ∀ n, 97 ≤ n → n ≤ 122 → P (Char.ofNat n) (Char.ofNat (n - 32))) (c : Char) :
    P c (toupper c) := by
  unfold toupper
  by_cases h : 97 ≤ c.toNat ∧ c.toNat ≤ 122
  · rw [if_pos h]
    have := hlow c.toNat h.1 h.2
    rwa [Char.ofNat_toNat] at this
  · rw [if_neg h]; exact hid c

theorem toupper_idem (c : Char) : toupper (toupper c) = toupper c := by
  have h : toupper (toupper c) = toupper c ∨ toupper c = c := by
    refine toupper_cases (fun c d => toupper d = d ∨ d = c) (fun _ => Or.inr rfl) ?_ c
    intro n h1 h2
    left
    interval_cases n <;> decide
  rcases h with h | h
  · exact h
  · rw [h, h]

theorem isSeparator_toupper (c : Char) : isSeparator (toupper c) = isSeparator c := by
  refine toupper_cases (fun c d => isSeparator d = isSeparator c) (fun _ => rfl) ?_ c
  intro n h1 h2
  interval_cases n <;> decide

theorem strFind_single_cons (c x : Char) (xs : Str) :
    strFind [c] (x :: xs) = if c = x then some 0 else (strFind [c] xs).map (· + 1) := by
  by_cases h : c = x <;> simp [strFind, List.isPrefixOf, h]

theorem strFind_single_none (c : Char) (s : Str) (h : strFind [c] s = none) :
    s.filter (fun x => decide (x ≠ c)) = s := by
  induction s with
  | nil => rfl
  | cons x xs ih =>
    rw [strFind_single_cons] at h
    by_cases hx : c = x
    · rw [if_pos hx] at h; cases h
    · have hx2 : x ≠ c := fun e => hx e.symm
      rw [if_neg hx, Option.map_eq_none'] at h
      rw [List.filter_cons_of_pos (by simpa using hx2), ih h]

theorem strFind_single_some (c : Char) (s : Str) :
    ∀ k, strFind [c] s = some k →
      k < s.length ∧ s.filter (fun x => decide (x ≠ c))
        = s.take k ++ (s.drop (k + 1)).filter (fun x => decide (x ≠ c)) := by
  induction s with
  | nil => intro k h; simp [strFind] at h
  | cons x xs ih =>
    intro k h
    rw [strFind_single_cons] at h
    by_cases hx : c = x
    · rw [if_pos hx] at h
      have hk : k = 0 := by injection h with h; exact h.symm
      subst hk
      subst hx
      simp
    · have hx2 : x ≠ c := fun e => hx e.symm
      rw [if_neg hx, Option.map_eq_some'] at h
      obtain ⟨j, hj, rfl⟩ := h
      obtain ⟨h1, h2⟩ := ih j hj
      refine ⟨by simpa using h1, ?_⟩
      rw [List.filter_cons_of_pos (by simpa using hx2), h2]
      simp

theorem replaceLoop_single (c : Char) (fuel : Nat) :
    ∀ done rest : Str, rest.length < fuel →
      replaceLoop [c] [] fuel done rest = some (done ++ rest.filter (fun x => decide (x ≠ c))) := by
  induction fuel with
  | zero => intro done rest h; simp at h
  | succ n ih =>
    intro done rest h
    cases hf : strFind [c] rest with
    | none =>
      simp only [replaceLoop, hf]
      rw [strFind_single_none c rest hf]
    | some k =>
      obtain ⟨hk, hfil⟩ := strFind_single_some c rest k hf
      simp only [replaceLoop, hf]
      rw [ih _ _ (by simp; omega), hfil]
      simp

/-- Replacing a one-character pattern by the empty string deletes every
occurrence of the character, and the loop ends. -/
theorem strReplaceAll_single (c : Char) (s : Str) :
    strReplaceAll s [c] [] = some (s.filter (fun x => decide (x ≠ c))) := by
  unfold strReplaceAll
  rw [replaceLoop_single c _ [] s (by omega)]
  rfl

theorem filter_separators (s : Str) :
    ((s.filter (fun x => decide (x ≠ ' '))).filter (fun x => decide (x ≠ '-'))).filter
      (fun x => decide (x ≠ '_')) = s.filter (fun c => !isSeparator c) := by
  rw [List.filter_filter, List.filter_filter]
  congr 1
  funext x
  by_cases h1 : x = ' ' <;> by_cases h2 : x = '-' <;> by_cases h3 : x = '_' <;>
    simp [isSeparator, h1, h2, h3]

theorem filter_map_toupper (s : Str) :
    (s.map toupper).filter (fun c => !isSeparator c)
      = (s.filter (fun c => !isSeparator c)).map toupper := by
  rw [List.filter_map]
  congr 1
  apply List.filter_congr
  intro x _
  simp [isSeparator_toupper]

theorem filter_stripUpper (s : Str) :
    (stripUpper s).filter (fun c => !isSeparator c) = stripUpper s := by
  unfold stripUpper
  rw [filter_map_toupper, List.filter_filter]
  simp

theorem stripUpper_idem (s : Str) : stripUpper (stripUpper s) = stripUpper s := by
  have h := filter_stripUpper s
  unfold stripUpper at h ⊢
  rw [h, List.map_map]
  apply List.map_congr_left
  intro x _
  exact toupper_idem x

theorem normalizedFolderName_eq (foldername : Str) :
    normalizedFolderName foldername = some (stripUpper foldername) := by
  have h : (((strToUpper foldername).filter (fun x => decide (x ≠ ' '))).filter
      (fun x => decide (x ≠ ' '))) = (strToUpper foldername).filter (fun x => decide (x ≠ ' ')) := by
    rw [List.filter_filter]; simp
  simp only [normalizedFolderName, strReplaceAll_single, Option.bind_eq_bind, Option.some_bind]
  rw [h, filter_separators, strToUpper, filter_map_toupper]
  rfl

theorem normalizedCore_eq (core : Str) :
    normalizedCore core = some (stripUpper (keptCore core)) := by
  simp only [normalizedCore, strReplaceAll_single, Option.bind_eq_bind, Option.some_bind,
    Option.pure_def]
  rw [filter_separators]
  rfl

/-! ## Normalization of core identifiers and folder names -/

theorem getlineAux_no_delim (d : Char) (s : Str) (h : d ∉ s) : getlineAux d s = (s, []) := by
  induction s with
  | nil => rfl
  | cons c cs ih =>
    have hc : c ≠ d := fun e => h (by simp [e])
    have hcs : d ∉ cs := fun e => h (by simp [e])
    simp [getlineAux, hc, ih hcs]

theorem strSplit_no_delim (d : Char) (s : Str) (h : d ∉ s) : (strSplit s d).length ≤ 1 := by
  cases s with
  | nil => simp [strSplit, splitLoop, getline]
  | cons c cs =>
    simp only [strSplit, List.length_cons, splitLoop, getline, getlineAux_no_delim d _ h,
      List.nil_append]
    simp

theorem keptCore_no_underscore (s : Str) (h : '_' ∉ s) : keptCore s = s := by
  unfold keptCore
  rw [if_neg (by have := strSplit_no_delim '_' s h; omega)]

theorem not_separator_of_mem_stripUpper (s : Str) (c : Char) (h : c ∈ stripUpper s) :
    isSeparator c = false := by
  have hf := filter_stripUpper s
  rw [List.filter_eq_self] at hf
  simpa using hf c h

theorem keptCore_stripUpper (s : Str) : keptCore (stripUpper s) = stripUpper s := by
  apply keptCore_no_underscore
  intro h
  have := not_separator_of_mem_stripUpper s '_' h
  simp [isSeparator] at this

/-- C8: the normalization of a core identifier (lines 143-153) and that of a
folder name (lines 169-172) both return a value, and applying either to its own
output returns that output unchanged. -/
theorem normalization_idempotent (s : Str) :
    (∃ out, normalizedCore s = some out ∧ normalizedCore out = some out)
      ∧ (∃ out, normalizedFolderName s = some out ∧ normalizedFolderName out = some out) := by
  refine ⟨⟨stripUpper (keptCore s), normalizedCore_eq s, ?_⟩,
    ⟨stripUpper s, normalizedFolderName_eq s, ?_⟩⟩
  · rw [normalizedCore_eq, keptCore_stripUpper, stripUpper_idem]
  · rw [normalizedFolderName_eq, stripUpper_idem]

/-- C9: two folder names that become equal after deleting every space, hyphen
and underscore and uppercasing every letter have the same
`normalizedFolderName`, which is that common string. -/
theorem normalizedFolderName_insensitive (a b : Str) (h : stripUpper a = stripUpper b) :
    normalizedFolderName a = normalizedFolderName b
      ∧ normalizedFolderName a = some (stripUpper a)
      ∧ normalizedFolderName b = some (stripUpper a) := by
  refine ⟨?_, normalizedFolderName_eq a, ?_⟩
  · rw [normalizedFolderName_eq, normalizedFolderName_eq, h]
  · rw [normalizedFolderName_eq, h]

/-- Witness of C9 on `m-GBA x_y` and `MGba X-Y`. -/
theorem normalizedFolderName_insensitive_witness :
    stripUpper "m-GBA x_y".toList = stripUpper "MGba X-Y".toList
      ∧ normalizedFolderName "m-GBA x_y".toList = normalizedFolderName "MGba X-Y".toList
      ∧ normalizedFolderName "m-GBA x_y".toList = some (stripUpper "m-GBA x_y".toList)
      ∧ normalizedFolderName "MGba X-Y".toList = some (stripUpper "m-GBA x_y".toList) :=
  ⟨by decide, normalizedFolderName_insensitive "m-GBA x_y".toList "MGba X-Y".toList (by decide)⟩

/-- C10, counterexample: `mgba_libretro.so` and `mgbalibretro.so` become equal
after deleting separators and uppercasing, yet the first is normalized to
`MGBA` (its last segment is dropped) and the second to `MGBALIBRETRO.SO`. -/
theorem normalizedCore_counterexample :
    stripUpper "mgba_libretro.so".toList = stripUpper "mgbalibretro.so".toList
      ∧ normalizedCore "mgba_libretro.so".toList = some "MGBA".toList
      ∧ normalizedCore "mgbalibretro.so".toList = some "MGBALIBRETRO.SO".toList
      ∧ normalizedCore "mgba_libretro.so".toList ≠ normalizedCore "mgbalibretro.so".toList := by
  decide

/-- C10, amended: if the parts of two core identifiers kept by the underscore
split of step 1 (`keptCore`: all segments but the last, joined, or the whole
identifier when the split yields at most one segment, as for an identifier
without underscore) become equal after deleting every space, hyphen and
underscore and uppercasing every letter, then the two `normalizedCore` values
are equal, both being that common string. -/
theorem normalizedCore_insensitive (a b : Str)
    (h : stripUpper (keptCore a) = stripUpper (keptCore b)) :
    normalizedCore a = normalizedCore b
      ∧ normalizedCore a = some (stripUpper (keptCore a))
      ∧ ('_' ∉ a → keptCore a = a) ∧ ('_' ∉ b → keptCore b = b) := by
  refine ⟨?_, normalizedCore_eq a, keptCore_no_underscore a, keptCore_no_underscore b⟩
  rw [normalizedCore_eq, normalizedCore_eq, h]

/-- Witness of the amended C10 on `m-gba_libretro.so` and `M GBA_next`. -/
theorem normalizedCore_insensitive_witness :
    stripUpper (keptCore "m-gba_libretro.so".toList) = stripUpper (keptCore "M GBA_next".toList)
      ∧ normalizedCore "m-gba_libretro.so".toList = normalizedCore "M GBA_next".toList
      ∧ normalizedCore "m-gba_libretro.so".toList = some "MGBA".toList :=
  ⟨by decide,
    (normalizedCore_insensitive "m-gba_libretro.so".toList "M GBA_next".toList (by decide)).1,
    by decide⟩

/-! ## Choice of the art folder -/

theorem isEmpty_eq_false {α : Type} (l : List α) (h : l ≠ []) : l.isEmpty = false := by
  cases l with
  | nil => exact absurd rfl h
  | cons _ _ => rfl

theorem folderLoop_cons (nc : Str) (e : DirEntry) (es : List DirEntry) (p : Str) :
    folderLoop nc (e :: es) p =
      if nc = stripUpper e.filename then some (p, e.path)
      else if strStartsWith (stripUpper e.filename) nc then folderLoop nc es e.path
      else folderLoop nc es p := by
  simp only [folderLoop, normalizedFolderName_eq]

theorem folderLoop_exact (nc : Str) (es : List DirEntry) :
    ∀ p : Str, (∃ e ∈ es, stripUpper e.filename = nc) →
      ∃ pre e post q, es = pre ++ e :: post ∧ (∀ x ∈ pre, stripUpper x.filename ≠ nc)
        ∧ stripUpper e.filename = nc ∧ folderLoop nc es p = some (q, e.path) := by
  induction es with
  | nil => intro p h; simp at h
  | cons x xs ih =>
    intro p h
    by_cases hx : nc = stripUpper x.filename
    · exact ⟨[], x, xs, p, rfl, by simp, hx.symm, by rw [folderLoop_cons, if_pos hx]⟩
    · have hex : ∃ e ∈ xs, stripUpper e.filename = nc := by
        obtain ⟨e, he, hn⟩ := h
        rcases List.mem_cons.1 he with rfl | he
        · exact absurd hn.symm hx
        · exact ⟨e, he, hn⟩
      have hstep : ∀ q, (∃ pre e post q', xs = pre ++ e :: post
          ∧ (∀ y ∈ pre, stripUpper y.filename ≠ nc) ∧ stripUpper e.filename = nc
          ∧ folderLoop nc xs q = some (q', e.path)) := fun q => ih q hex
      have hgo : ∃ q, folderLoop nc (x :: xs) p = folderLoop nc xs q := by
        rw [folderLoop_cons, if_neg hx]
        by_cases hp : strStartsWith (stripUpper x.filename) nc = true
        · exact ⟨x.path, by rw [if_pos hp]⟩
        · exact ⟨p, by rw [if_neg hp]⟩
      obtain ⟨q, hq⟩ := hgo
      obtain ⟨pre, e, post, q', hsplit, hpre, he, hres⟩ := hstep q
      refine ⟨x :: pre, e, post, q', by rw [hsplit]; rfl, ?_, he, by rw [hq, hres]⟩
      intro y hy
      rcases List.mem_cons.1 hy with rfl | hy
      · exact fun e => hx e.symm
      · exact hpre y hy

theorem folderLoop_none (nc : Str) (es : List DirEntry) :
    ∀ p : Str, (∀ e ∈ es, stripUpper e.filename ≠ nc) →
      (∀ e ∈ es, ¬ nc <+: stripUpper e.filename) → folderLoop nc es p = some (p, []) := by
  induction es with
  | nil => intro p _ _; rfl
  | cons x xs ih =>
    intro p h1 h2
    have hx : ¬ nc = stripUpper x.filename := fun e => h1 x (by simp) e.symm
    have hp : ¬ strStartsWith (stripUpper x.filename) nc = true :=
      fun e => h2 x (by simp) ((strStartsWith_iff _ _).1 e)
    rw [folderLoop_cons, if_neg hx, if_neg hp]
    exact ih p (fun e he => h1 e (by simp [he])) (fun e he => h2 e (by simp [he]))

theorem folderLoop_last (nc : Str) (pre : List DirEntry) (e : DirEntry) (post : List DirEntry) :
    ∀ p : Str, (∀ x ∈ pre ++ e :: post, stripUpper x.filename ≠ nc) →
      nc <+: stripUpper e.filename → (∀ x ∈ post, ¬ nc <+: stripUpper x.filename) →
      folderLoop nc (pre ++ e :: post) p = some (e.path, []) := by
  induction pre with
  | nil =>
    intro p h1 h2 h3
    have hx : ¬ nc = stripUpper e.filename := fun h => h1 e (by simp) h.symm
    rw [List.nil_append, folderLoop_cons, if_neg hx, if_pos ((strStartsWith_iff _ _).2 h2)]
    exact folderLoop_none nc post e.path (fun x hx => h1 x (by simp [hx])) h3
  | cons x xs ih =>
    intro p h1 h2 h3
    have hx : ¬ nc = stripUpper x.filename := fun h => h1 x (by simp) h.symm
    have hrest : ∀ y ∈ xs ++ e :: post, stripUpper y.filename ≠ nc :=
      fun y hy => h1 y (List.mem_cons_of_mem _ hy)
    rw [List.cons_append, folderLoop_cons, if_neg hx]
    by_cases hp : strStartsWith (stripUpper x.filename) nc = true
    · rw [if_pos hp]; exact ih _ hrest h2 h3
    · rw [if_neg hp]; exact ih _ hrest h2 h3

theorem normalizedFolderName_eq_some_iff (f nc : Str) :
    normalizedFolderName f = some nc ↔ stripUpper f = nc := by
  rw [normalizedFolderName_eq]
  exact Option.some_inj

theorem artFolder_eq (dirs : Listing) (game : GameInfoData) (folderPath coreKey : Str)
    (entries : List DirEntry) (hcore : normalizedCore game.core = some coreKey)
    (hdir : dirs folderPath = some entries) :
    artFolder dirs game folderPath
      = chooseFolder coreKey (entries.filter (fun entry => entry.isDirectory)) := by
  simp only [artFolder, hcore, hdir]

/-- C4: when some sub-directory has a normalized name equal to the normalized
core identifier `coreKey`, the folder chosen (`subFolderPath`) is the path of
the first sub-directory in enumeration order whose normalized name equals
`coreKey`, whatever the order of the sub-directories and however many prefix
matches surround it; this is the folder `loadGameVisualData` goes on with for
every record whose `normalizedCore` is `coreKey`. -/
theorem chooseFolder_exact (coreKey : Str) (subDirectories : List DirEntry)
    (hpath : ∀ e ∈ subDirectories, e.path ≠ [])
    (hex : ∃ e ∈ subDirectories, normalizedFolderName e.filename = some coreKey) :
    ∃ pre e post, subDirectories = pre ++ e :: post
      ∧ (∀ x ∈ pre, normalizedFolderName x.filename ≠ some coreKey)
      ∧ normalizedFolderName e.filename = some coreKey
      ∧ chooseFolder coreKey subDirectories = some e.path
      ∧ ∀ (dirs : Listing) (game : GameInfoData) (folderPath : Str) (entries : List DirEntry),
          normalizedCore game.core = some coreKey → dirs folderPath = some entries →
          entries.filter (fun entry => entry.isDirectory) = subDirectories →
          artFolder dirs game folderPath = some e.path := by
  simp only [normalizedFolderName_eq_some_iff, ne_eq] at hex ⊢
  obtain ⟨pre, e, post, q, hsplit, hpre, he, hres⟩ :=
    folderLoop_exact coreKey subDirectories [] hex
  have hne : e.path ≠ [] := hpath e (by rw [hsplit]; simp)
  have hchoose : chooseFolder coreKey subDirectories = some e.path := by
    simp only [chooseFolder, hres, isEmpty_eq_false _ hne]
    rfl
  refine ⟨pre, e, post, hsplit, hpre, he, hchoose, ?_⟩
  intro dirs game folderPath entries hcore hdir hsub
  rw [artFolder_eq dirs game folderPath coreKey entries hcore hdir, hsub, hchoose]

/-- Witness of C4: the exact match `m-GBA` is chosen although a prefix match
precedes it and another follows it. -/
theorem chooseFolder_exact_witness :
    (∀ e ∈ exactDirs, e.path ≠ [])
      ∧ (∃ e ∈ exactDirs, normalizedFolderName e.filename = some "MGBA".toList)
      ∧ chooseFolder "MGBA".toList exactDirs = some "art/m-GBA".toList
      ∧ ∃ pre e post, exactDirs = pre ++ e :: post
          ∧ (∀ x ∈ pre, normalizedFolderName x.filename ≠ some "MGBA".toList)
          ∧ normalizedFolderName e.filename = some "MGBA".toList
          ∧ chooseFolder "MGBA".toList exactDirs = some e.path :=
  ⟨by decide, by decide, by decide,
    (chooseFolder_exact "MGBA".toList exactDirs (by decide) (by decide)).imp
      fun _ h => h.imp fun _ h => h.imp fun _ h => ⟨h.1, h.2.1, h.2.2.1, h.2.2.2.1⟩⟩

/-- C5: when no sub-directory has a normalized name equal to the normalized
core identifier `coreKey`, the folder chosen is the path of the last
sub-directory in enumeration order whose normalized name starts with `coreKey`;
when there is none the chosen path is empty and `loadGameVisualData` returns
an unresolved value. -/
theorem chooseFolder_fallback (coreKey : Str) (subDirectories : List DirEntry)
    (hno : ∀ e ∈ subDirectories, normalizedFolderName e.filename ≠ some coreKey) :
    (∀ pre e post, subDirectories = pre ++ e :: post →
        (∃ n, normalizedFolderName e.filename = some n ∧ coreKey <+: n) →
        (∀ x ∈ post, ∀ n, normalizedFolderName x.filename = some n → ¬ coreKey <+: n) →
        chooseFolder coreKey subDirectories = some e.path)
      ∧ ((∀ x ∈ subDirectories, ∀ n, normalizedFolderName x.filename = some n →
            ¬ coreKey <+: n) →
          chooseFolder coreKey subDirectories = some []
            ∧ ∀ (dirs : Listing) (game : GameInfoData) (folderPath : Str) (entries : List DirEntry),
                normalizedCore game.core = some coreKey →
                dirs folderPath = some entries →
                entries.filter (fun entry => entry.isDirectory) = subDirectories →
                loadGameVisualData dirs game folderPath = some {}) := by
  simp only [normalizedFolderName_eq_some_iff, ne_eq] at hno
  constructor
  · intro pre e post hsplit hpre hpost
    obtain ⟨n, hn, hpn⟩ := hpre
    rw [normalizedFolderName_eq, Option.some_inj] at hn
    subst hn
    have h3 : ∀ x ∈ post, ¬ coreKey <+: stripUpper x.filename :=
      fun x hx => hpost x hx _ (normalizedFolderName_eq _)
    have := folderLoop_last coreKey pre e post [] (by rw [← hsplit]; exact hno) hpn h3
    rw [← hsplit] at this
    simp only [chooseFolder, this]
    rfl
  · intro hnone
    have h2 : ∀ x ∈ subDirectories, ¬ coreKey <+: stripUpper x.filename :=
      fun x hx => hnone x hx _ (normalizedFolderName_eq _)
    have hloop := folderLoop_none coreKey subDirectories [] hno h2
    have hchoose : chooseFolder coreKey subDirectories = some [] := by
      simp only [chooseFolder, hloop]
      rfl
    refine ⟨hchoose, ?_⟩
    intro dirs game folderPath entries hcore hdir hsub
    unfold loadGameVisualData
    split
    · simp only [artFolder, hcore, hdir, hsub, hchoose]
      rfl
    · rfl

/-- Witness of C5: without an exact match the last folder starting with `MGBA`
is chosen. -/
theorem chooseFolder_fallback_witness :
    (∀ e ∈ prefixDirs, normalizedFolderName e.filename ≠ some "MGBA".toList)
      ∧ chooseFolder "MGBA".toList prefixDirs = some "art/mgba_2".toList
      ∧ chooseFolder "MGBA".toList prefixDirs = some (artDir "mgba_2".toList).path :=
  ⟨by decide, by decide,
    (chooseFolder_fallback "MGBA".toList prefixDirs (by decide)).1
      [artDir "mGBA-old".toList, artDir "snes9x".toList] (artDir "mgba_2".toList)
      [artDir "Gambatte".toList] rfl ⟨"MGBA2".toList, by decide, by decide⟩
      (by
        intro x hx n hn
        simp only [List.mem_singleton] at hx
        subst hx
        have : n = "GAMBATTE".toList := by
          have h : normalizedFolderName (artDir "Gambatte".toList).filename
              = some "GAMBATTE".toList := by decide
          rw [h] at hn
          exact (Option.some_inj.1 hn).symm
        subst this
        decide)⟩

/-! ## Choice of the screenshot -/

theorem truncateAtDot_eq_takeWhile (s : Str) :
    truncateAtDot s = s.takeWhile (fun c => decide (c ≠ '.')) := by
  unfold truncateAtDot
  induction s with
  | nil => rfl
  | cons x xs ih =>
    rw [strFind_single_cons]
    by_cases hx : '.' = x
    · subst hx; simp
    · have hx2 : x ≠ '.' := fun e => hx e.symm
      rw [if_neg hx, List.takeWhile_cons_of_pos (by simpa using hx2)]
      cases hf : strFind ['.'] xs with
      | none => rw [hf] at ih; simp only [Option.map_none']; rw [← ih]
      | some k => rw [hf] at ih; simp only [Option.map_some', List.take_succ_cons]; rw [← ih]

theorem matchLoop_first (g : Str) (l : List DirEntry) :
    (∃ e ∈ l, truncateAtDot e.filename = g) →
      ∃ pre e post, l = pre ++ e :: post ∧ (∀ x ∈ pre, truncateAtDot x.filename ≠ g)
        ∧ truncateAtDot e.filename = g ∧ matchLoop g l = e.path := by
  induction l with
  | nil => intro h; simp at h
  | cons x xs ih =>
    intro h
    by_cases hx : truncateAtDot x.filename = g
    · exact ⟨[], x, xs, rfl, by simp, hx, by rw [matchLoop, if_pos hx]⟩
    · have hex : ∃ e ∈ xs, truncateAtDot e.filename = g := by
        obtain ⟨e, he, hn⟩ := h
        rcases List.mem_cons.1 he with rfl | he
        · exact absurd hn hx
        · exact ⟨e, he, hn⟩
      obtain ⟨pre, e, post, hsplit, hpre, he, hres⟩ := ih hex
      refine ⟨x :: pre, e, post, by rw [hsplit]; rfl, ?_, he, by rw [matchLoop, if_neg hx, hres]⟩
      intro y hy
      rcases List.mem_cons.1 hy with rfl | hy
      · exact hx
      · exact hpre y hy

/-- C6: when the chosen folder holds at least one `.png` entry whose filename
cut at its first `.` equals the ROM filename cut the same way,
`loadGameVisualData` returns the path of such an entry, and no entry with the
same cut name has a later modification time. -/
theorem loadGameVisualData_newest (dirs : Listing) (game : GameInfoData)
    (folderPath subFolderPath : Str) (entries : List DirEntry)
    (hgate : game.active = true ∧ game.coreName ≠ [] ∧ game.fileName ≠ [])
    (hsub : artFolder dirs game folderPath = some subFolderPath) (hne : subFolderPath ≠ [])
    (hshots : dirs subFolderPath = some entries)
    (hmatch : ∃ e ∈ entries, e.extension = ".png".toList
      ∧ truncateAtDot e.filename = truncateAtDot game.fileName) :
    ∃ e ∈ entries, e.extension = ".png".toList
      ∧ truncateAtDot e.filename = truncateAtDot game.fileName
      ∧ loadGameVisualData dirs game folderPath = some { active := true, filePath := e.path }
      ∧ ∀ x ∈ entries, x.extension = ".png".toList →
          truncateAtDot x.filename = truncateAtDot game.fileName →
          x.lastWriteTime ≤ e.lastWriteTime := by
  obtain ⟨hact, hcn, hfn⟩ := hgate
  have hperm := stdSort_perm (fun a b : DirEntry => decide (a.lastWriteTime > b.lastWriteTime))
    (entries.filter (fun entry => entry.extension = ".png".toList))
  have hsorted := stdSort_pairwise
    (fun a b : DirEntry => decide (a.lastWriteTime > b.lastWriteTime))
    (fun a b h => by
      have h1 : a.lastWriteTime > b.lastWriteTime := by simpa using h
      simp only [gt_iff_lt, decide_eq_false_iff_not, not_lt]
      omega)
    (fun a b c h1 h2 => by
      have h1 : a.lastWriteTime > b.lastWriteTime := by simpa using h1
      have h2 : b.lastWriteTime > c.lastWriteTime := by simpa using h2
      simp only [gt_iff_lt, decide_eq_true_eq]
      omega)
    (entries.filter (fun entry => entry.extension = ".png".toList))
  have hmem : ∀ x, x ∈ stdSort
      (fun a b : DirEntry => decide (a.lastWriteTime > b.lastWriteTime))
      (entries.filter (fun entry => entry.extension = ".png".toList))
      ↔ x ∈ entries ∧ x.extension = ".png".toList := by
    intro x
    rw [hperm.mem_iff, List.mem_filter, decide_eq_true_eq]
  obtain ⟨e0, he0, hpng0, htr0⟩ := hmatch
  obtain ⟨pre, e, post, hsplit, hpre, he, hres⟩ :=
    matchLoop_first (truncateAtDot game.fileName) _ ⟨e0, (hmem e0).2 ⟨he0, hpng0⟩, htr0⟩
  have hein : e ∈ entries ∧ e.extension = ".png".toList :=
    (hmem e).1 (by rw [hsplit]; simp)
  refine ⟨e, hein.1, hein.2, he, ?_, ?_⟩
  · have hnonempty : (stdSort
        (fun a b : DirEntry => decide (a.lastWriteTime > b.lastWriteTime))
        (entries.filter (fun entry => entry.extension = ".png".toList))).isEmpty = false := by
      apply isEmpty_eq_false
      rw [hsplit]
      simp
    simp only [loadGameVisualData, hact, isEmpty_eq_false _ hcn, isEmpty_eq_false _ hfn, hsub,
      isEmpty_eq_false _ hne, loadScreenshot, hshots, hnonempty, hres, Bool.not_false,
      Bool.and_self, if_true]
  · intro x hx hpng htr
    have hxs := (hmem x).2 ⟨hx, hpng⟩
    rw [hsplit] at hxs hsorted
    rw [List.pairwise_append, List.pairwise_cons] at hsorted
    rcases List.mem_append.1 hxs with hxpre | hxrest
    · exact absurd htr (hpre x hxpre)
    · rcases List.mem_cons.1 hxrest with rfl | hxpost
      · exact le_refl _
      · have := hsorted.2.1.1 x hxpost
        simp only [gt_iff_lt, decide_eq_false_iff_not, not_lt] at this
        exact this

/-- Witness of C6: of the two screenshots of `Game` the one written last is
returned, not the newest file of the folder. -/
theorem loadGameVisualData_newest_witness :
    (activeGame.active = true ∧ activeGame.coreName ≠ [] ∧ activeGame.fileName ≠ [])
      ∧ artFolder artListing activeGame "art".toList = some "art/mGBA".toList
      ∧ artListing "art/mGBA".toList = some shots
      ∧ loadGameVisualData artListing activeGame "art".toList
          = some { active := true, filePath := "art/mGBA/Game.state2.png".toList }
      ∧ ∃ e ∈ shots, e.extension = ".png".toList
          ∧ truncateAtDot e.filename = truncateAtDot activeGame.fileName
          ∧ loadGameVisualData artListing activeGame "art".toList
              = some { active := true, filePath := e.path }
          ∧ ∀ x ∈ shots, x.extension = ".png".toList →
              truncateAtDot x.filename = truncateAtDot activeGame.fileName →
              x.lastWriteTime ≤ e.lastWriteTime :=
  ⟨by decide, by decide, by decide, by decide,
    loadGameVisualData_newest artListing activeGame "art".toList "art/mGBA".toList shots
      (by decide) (by decide) (by decide) (by decide)
      ⟨shot "Game.state1.png".toList ".png".toList 10, by decide, by decide, by decide⟩⟩

/-- C7, the code at the failing input: the chosen folder `art/mGBA` holds
`.png` files but none of the ROM `Zelda.gba`; the returned value has an empty
file path and `active = true`. -/
theorem loadGameVisualData_unmatched :
    (∀ e ∈ shots, e.extension = ".png".toList →
        truncateAtDot e.filename ≠ truncateAtDot zeldaGame.fileName)
      ∧ artFolder artListing zeldaGame "art".toList = some "art/mGBA".toList
      ∧ loadGameVisualData artListing zeldaGame "art".toList
          = some { active := true, filePath := [] } := by
  decide

/-! ## Navigation: `setAppState`, `nextAppState`, `updateAppState` -/

theorem moveSelection_of_not_list (dx dy : Int) (st : NavState) (hpic : st.isPictureView = false)
    (hlist : st.isListView = false) : moveSelection dx dy st = some st := by
  simp only [moveSelection, hpic, hlist, Bool.false_eq_true, if_false]

theorem moveSelection_of_picture (dx dy : Int) (st : NavState) (hpic : st.isPictureView = true) :
    moveSelection dx dy st
      = some { st with
          selectedGameIndex := st.selectedGameIndex + dx
          camX := st.camX - ((dx * 32 : Int) : ℚ) } := by
  simp only [moveSelection, hpic, if_true]

theorem readIndex_lt (w : Nat) (idx : Int) (size : Nat) (h : size ≠ 0) :
    ∃ i, i < size ∧ readIndex w idx size = some i := by
  refine ⟨(toSizeT w idx + size) % 2 ^ w % size, Nat.mod_lt _ (Nat.pos_of_ne_zero h), ?_⟩
  simp [readIndex, sizeMod, h]

/-- C11, the code at the failing input: in picture view over three records
`A`, `B`, `C`, four ticks with `left` pressed bring the stored index to `-4`;
the first three select `C`, `B`, `A`, and the fourth selects `A` again (read
index 0) where the non-negative remainder of `-4` by 3 is 2 (`C`). The read
index is 0 for a `size_t` of 64 bits and of 32 bits alike. -/
theorem updateAppState_wrap_below :
    ((pressLeft pictureStart).map fun st => (st.selectedGameIndex, st.selectedGame.name))
        = some (-1, "C".toList)
      ∧ (((pressLeft pictureStart).bind pressLeft).map
          fun st => (st.selectedGameIndex, st.selectedGame.name)) = some (-2, "B".toList)
      ∧ ((((pressLeft pictureStart).bind pressLeft).bind pressLeft).map
          fun st => (st.selectedGameIndex, st.selectedGame.name)) = some (-3, "A".toList)
      ∧ (((((pressLeft pictureStart).bind pressLeft).bind pressLeft).bind pressLeft).map
          fun st => (st.selectedGameIndex, st.selectedGame.name)) = some (-4, "A".toList)
      ∧ readIndex 64 (-4) 3 = some 0 ∧ readIndex 32 (-4) 3 = some 0 ∧ (-4 : Int) % 3 = 2 := by
  decide

theorem toInt_of_lt (n : Nat) (h : n < 2 ^ 31) : toInt n = (n : Int) := by
  unfold toInt
  have h1 : (n : Int) < 2 ^ 31 := by exact_mod_cast h
  have h2 : (0 : Int) ≤ (n : Int) := Int.ofNat_nonneg n
  rw [Int.emod_eq_of_lt (by omega) (by omega)]
  omega

theorem toSizeT_of_nonneg (w k : Nat) (h : k < 2 ^ w) : toSizeT w (k : Int) = k := by
  unfold toSizeT
  have h1 : ((k : Int)) < 2 ^ w := by exact_mod_cast h
  rw [Int.emod_eq_of_lt (Int.ofNat_nonneg k) h1]
  rfl

theorem readIndex_of_lt (w k size : Nat) (hw : 32 ≤ w) (hk : k < size) (hsize : size < 2 ^ 31) :
    readIndex w (k : Int) size = some k := by
  have hpow : 2 ^ 32 ≤ 2 ^ w := Nat.pow_le_pow_right (by decide) hw
  have h31 : (2 : Nat) ^ 31 + 2 ^ 31 = 2 ^ 32 := by decide
  have hk2 : k < 2 ^ w := by omega
  have hsum : k + size < 2 ^ w := by omega
  unfold readIndex sizeMod
  rw [toSizeT_of_nonneg w k hk2, Nat.mod_eq_of_lt hsum, if_neg (by omega),
    Nat.add_mod_right, Nat.mod_eq_of_lt hk]

theorem toSizeT_of_neg (w m : Nat) (hm : 0 < m) (h : m ≤ 2 ^ w) :
    toSizeT w (-(m : Int)) = 2 ^ w - m := by
  unfold toSizeT
  have hP : ((2 ^ w : Nat) : Int) = (2 : Int) ^ w := by norm_cast
  have h1 : (-(m : Int)) % (2 : Int) ^ w = ((2 ^ w - m : Nat) : Int) := by
    rw [← Int.add_mul_emod_self_left (-(m : Int)) ((2 : Int) ^ w) 1, mul_one, ← hP]
    have hm2 : ((m : Nat) : Int) ≤ ((2 ^ w : Nat) : Int) := by exact_mod_cast h
    have hm3 : (0 : Int) < (m : Int) := by exact_mod_cast hm
    rw [Int.emod_eq_of_lt (by omega) (by omega)]
    omega
  rw [h1]
  rfl

/-- The index expression of line 367 wraps as intended as long as the stored
index is not below `-size`: the read index is then the non-negative remainder
of the stored index by `size`. -/
theorem readIndex_of_ge (w size : Nat) (idx : Int) (hw : 32 ≤ w) (hsize : size < 2 ^ 31)
    (hpos : 0 < size) (hlo : -(size : Int) ≤ idx) (hhi : idx < 2 ^ 31) :
    readIndex w idx size = some (idx % (size : Int)).toNat := by
  have hpow : 2 ^ 32 ≤ 2 ^ w := Nat.pow_le_pow_right (by decide) hw
  have h31 : (2 : Nat) ^ 31 + 2 ^ 31 = 2 ^ 32 := by decide
  rcases Int.lt_or_le idx 0 with hneg | hnn
  · obtain ⟨m, hm⟩ : ∃ m : Nat, idx = -(m : Int) := ⟨(-idx).toNat, by omega⟩
    subst hm
    have hm0 : 0 < m := by omega
    have hms : m ≤ size := by omega
    have hrem : (-(m : Int)) % (size : Int) = ((size - m : Nat) : Int) := by
      rw [← Int.add_mul_emod_self_left (-(m : Int)) (size : Int) 1, mul_one]
      rcases Nat.lt_or_ge m size with hlt | hge
      · rw [Int.emod_eq_of_lt (by omega) (by omega)]
        omega
      · have : m = size := by omega
        subst this
        simp
    unfold readIndex sizeMod
    rw [toSizeT_of_neg w m hm0 (by omega), if_neg (by omega), hrem, Int.toNat_ofNat]
    have hsum : 2 ^ w - m + size = (size - m) + 2 ^ w := by omega
    rw [hsum, Nat.add_mod_right, Nat.mod_eq_of_lt (by omega : size - m < 2 ^ w),
      Nat.mod_eq_of_lt (by omega : size - m < size)]
  · obtain ⟨k, hk⟩ : ∃ k : Nat, idx = (k : Int) := ⟨idx.toNat, by omega⟩
    subst hk
    have hk31 : k < 2 ^ 31 := by exact_mod_cast hhi
    unfold readIndex sizeMod
    rw [toSizeT_of_nonneg w k (by omega), if_neg (by omega),
      Nat.mod_eq_of_lt (by omega : k + size < 2 ^ w), Nat.add_mod_right]
    congr 1

/-- C12: in list view over a non-empty list whose length fits an `int`, on a
`size_t` of at least 32 bits, `updateAppState` returns; the stored selection
index is `old - dy + 4 * dx` clamped into `[0, len - 1]`, and the selected
record is the element of the list at that index. -/
theorem updateAppState_list_clamp (w : Nat) (dirs : Listing) (saveDir : Str) (dx dy : Int)
    (st : NavState) (hw : 32 ≤ w) (hpic : st.isPictureView = false)
    (hlist : st.isListView = true) (hne : st.currentGameList ≠ [])
    (hlen : st.currentGameList.length < 2 ^ 31) :
    ∃ st', updateAppState w dirs saveDir dx dy st = some st'
      ∧ st'.selectedGameIndex
          = (if st.selectedGameIndex - dy + 4 * dx < 0 then 0
             else if (st.currentGameList.length : Int) - 1 < st.selectedGameIndex - dy + 4 * dx
             then (st.currentGameList.length : Int) - 1
             else st.selectedGameIndex - dy + 4 * dx)
      ∧ 0 ≤ st'.selectedGameIndex
      ∧ st'.selectedGameIndex ≤ (st.currentGameList.length : Int) - 1
      ∧ st.currentGameList.get? st'.selectedGameIndex.toNat = some st'.selectedGame := by
  have hpos : 0 < st.currentGameList.length := List.length_pos.2 hne
  have hposZ : (0 : Int) < (st.currentGameList.length : Int) := by exact_mod_cast hpos
  have hclamp : stdClamp (st.selectedGameIndex - dy + dx * 4) 0
      ((st.currentGameList.length : Int) - 1)
      = some (min (max (st.selectedGameIndex - dy + dx * 4) 0)
          ((st.currentGameList.length : Int) - 1)) := by
    unfold stdClamp
    rw [if_neg (by omega)]
  obtain ⟨k, hk⟩ : ∃ k : Nat,
      min (max (st.selectedGameIndex - dy + dx * 4) 0) ((st.currentGameList.length : Int) - 1)
        = (k : Int) :=
    ⟨_, (Int.toNat_of_nonneg (by omega)).symm⟩
  have hmove : moveSelection dx dy st = some { st with selectedGameIndex := (k : Int) } := by
    simp only [moveSelection, hpic, hlist, toInt_of_lt _ hlen, Bool.false_eq_true, if_false,
      if_true, hclamp, hk]
  have hklt : k < st.currentGameList.length := by
    have : (k : Int) ≤ (st.currentGameList.length : Int) - 1 := by
      rw [← hk]; omega
    omega
  have hisEmpty : st.currentGameList.isEmpty = false := by
    cases hl : st.currentGameList with
    | nil => exact absurd hl hne
    | cons _ _ => rfl
  have hget : st.currentGameList.get? k = some (st.currentGameList.get ⟨k, hklt⟩) :=
    List.get?_eq_get hklt
  refine ⟨{ st with
      selectedGameIndex := (k : Int)
      selectedGame := st.currentGameList.get ⟨k, hklt⟩
      selectedGameVisual := {} }, ?_, ?_, ?_, ?_, ?_⟩
  · simp only [updateAppState, hmove, selectGame, hisEmpty, readIndex_of_lt w k _ hw hklt hlen,
      hget, hpic, Bool.not_false, if_true, Bool.and_false, Bool.false_eq_true, if_false]
  · show (k : Int) = _
    rw [← hk]
    split_ifs <;> omega
  · exact Int.ofNat_nonneg k
  · show (k : Int) ≤ _
    omega
  · show st.currentGameList.get? (k : Int).toNat = _
    rw [Int.toNat_ofNat]
    exact hget

/-- Witness of C12: with five records a raw index of `-3` is stored as 0 and a
raw index of `9` as 4. -/
theorem updateAppState_list_clamp_witness :
    ((32 : Nat) ≤ 64 ∧ listState.isPictureView = false ∧ listState.isListView = true
        ∧ listState.currentGameList ≠ [] ∧ listState.currentGameList.length < 2 ^ 31)
      ∧ listState.selectedGameIndex - 1 + 4 * (-1) = -3
      ∧ ((updateAppState 64 artListing "art".toList (-1) 1 listState).map
          fun st => st.selectedGameIndex) = some 0
      ∧ listState.selectedGameIndex - (-3) + 4 * 1 = 9
      ∧ ((updateAppState 64 artListing "art".toList 1 (-3) listState).map
          fun st => st.selectedGameIndex) = some 4
      ∧ ∃ st', updateAppState 64 artListing "art".toList (-1) 1 listState = some st'
          ∧ st'.selectedGameIndex = 0 ∧ 0 ≤ st'.selectedGameIndex
          ∧ st'.selectedGameIndex ≤ 4
          ∧ listState.currentGameList.get? st'.selectedGameIndex.toNat = some st'.selectedGame :=
  ⟨by decide, by decide, by decide, by decide, by decide,
    (updateAppState_list_clamp 64 artListing "art".toList (-1) 1 listState (by decide)
      (by decide) (by decide) (by decide) (by decide)).imp
      fun _ h => ⟨h.1, h.2.1, h.2.2.1, h.2.2.2.1, h.2.2.2.2⟩⟩

/-- Where the record lookup of `updateAppState` is defined: with an empty list
outside the list view (picture view, or neither view) it returns, the selected
record is the default one and the selected art is unresolved, no modulo being
evaluated; and for a non-empty list the index expression of line 367 is
defined and below the length of the list for every stored index, the record
read being the element at that index. -/
theorem updateAppState_lookup_defined (w : Nat) (dirs : Listing) (saveDir : Str) (dx dy : Int)
    (st : NavState) :
    (st.currentGameList = [] → (st.isPictureView = true ∨ st.isListView = false) →
        ∃ st', updateAppState w dirs saveDir dx dy st = some st'
          ∧ st'.selectedGame
              = { active := false, name := [], core := [], coreName := [], number := [],
                  drive := [], folder := [], fileName := [] }
          ∧ st'.selectedGameVisual = { active := false, filePath := [] })
      ∧ (st.currentGameList ≠ [] →
          ∀ idx : Int, ∃ i, ∃ h : i < st.currentGameList.length,
            readIndex w idx st.currentGameList.length = some i
              ∧ selectGame w st.currentGameList idx = some (st.currentGameList.get ⟨i, h⟩)) := by
  constructor
  · intro hempty hview
    by_cases hpic : st.isPictureView = true
    · refine ⟨{ st with
          selectedGameIndex := st.selectedGameIndex + dx
          camX := st.camX - ((dx * 32 : Int) : ℚ)
          selectedGame := {}
          selectedGameVisual := {} }, ?_, rfl, rfl⟩
      simp only [updateAppState, moveSelection_of_picture dx dy st hpic, selectGame, hempty,
        List.isEmpty_nil, Bool.not_true, Bool.false_eq_true, if_false, Bool.false_and]
    · have hpic' : st.isPictureView = false := by simpa using hpic
      have hlist : st.isListView = false := by
        rcases hview with h | h
        · exact absurd h hpic
        · exact h
      refine ⟨{ st with selectedGame := {}, selectedGameVisual := {} }, ?_, rfl, rfl⟩
      simp only [updateAppState, moveSelection_of_not_list dx dy st hpic' hlist, selectGame,
        hempty, List.isEmpty_nil, Bool.not_true, Bool.false_eq_true, if_false, Bool.false_and]
  · intro hne idx
    have hlen : st.currentGameList.length ≠ 0 := fun h => hne (List.length_eq_zero.1 h)
    obtain ⟨i, hi, hread⟩ := readIndex_lt w idx _ hlen
    have hisEmpty : st.currentGameList.isEmpty = false := by
      cases hl : st.currentGameList with
      | nil => exact absurd hl hne
      | cons _ _ => rfl
    refine ⟨i, hi, hread, ?_⟩
    simp only [selectGame, hisEmpty, hread, Bool.not_false, if_true]
    exact List.get?_eq_get hi

theorem stdSort_name_pairwise (l : List GameInfoData) :
    (stdSort (fun a b : GameInfoData => decide (a.name < b.name)) l).Pairwise
      (fun a b => ¬ b.name < a.name) := by
  have := stdSort_pairwise (fun a b : GameInfoData => decide (a.name < b.name))
    (fun a b h => by
      have h1 : a.name < b.name := by simpa using h
      simpa using lt_asymm h1)
    (fun a b c h1 h2 => by
      have h1 : a.name < b.name := by simpa using h1
      have h2 : b.name < c.name := by simpa using h2
      simpa using lt_trans h1 h2)
    l
  refine this.imp ?_
  intro a b hab
  simpa using hab

/-- C14: `setAppState` fills the active list per view: for Picture-Recent it is
the recent list itself; for List-Recent and List-Favorite it is a permutation
of the recent, respectively favorite, list in non-decreasing order of display
name; in every case the recent and favorite lists are left as they were and the
selection index is 0. -/
theorem setAppState_lists (st : NavState) :
    ((setAppState st APPSTATE_RECENTVIEW).currentGameList = st.recentGameList
        ∧ (setAppState st APPSTATE_RECENTVIEW).isPictureView = true
        ∧ (setAppState st APPSTATE_RECENTVIEW).isListView = false)
      ∧ ((setAppState st APPSTATE_RECENTLIST).currentGameList.Perm st.recentGameList
        ∧ (setAppState st APPSTATE_RECENTLIST).currentGameList.Pairwise
            (fun a b => ¬ b.name < a.name)
        ∧ (setAppState st APPSTATE_RECENTLIST).isListView = true
        ∧ (setAppState st APPSTATE_RECENTLIST).isPictureView = false)
      ∧ ((setAppState st APPSTATE_FAVORITELIST).currentGameList.Perm st.favoriteGameList
        ∧ (setAppState st APPSTATE_FAVORITELIST).currentGameList.Pairwise
            (fun a b => ¬ b.name < a.name)
        ∧ (setAppState st APPSTATE_FAVORITELIST).isListView = true
        ∧ (setAppState st APPSTATE_FAVORITELIST).isPictureView = false)
      ∧ ∀ state : Int,
          (setAppState st state).recentGameList = st.recentGameList
            ∧ (setAppState st state).favoriteGameList = st.favoriteGameList
            ∧ (setAppState st state).selectedGameIndex = 0 := by
  have h10 : ¬ (APPSTATE_RECENTLIST = APPSTATE_RECENTVIEW) := by decide
  have h20 : ¬ (APPSTATE_FAVORITELIST = APPSTATE_RECENTVIEW) := by decide
  have h12 : ¬ (APPSTATE_RECENTLIST = APPSTATE_FAVORITELIST) := by decide
  refine ⟨⟨?_, ?_, ?_⟩, ⟨?_, ?_, ?_, ?_⟩, ⟨?_, ?_, ?_, ?_⟩, ?_⟩
  · simp only [setAppState, if_true]
  · simp only [setAppState, if_true]
  · simp only [setAppState, if_true]
  · simp only [setAppState, h10, h12, if_false, or_true, if_true]
    exact stdSort_perm _ _
  · simp only [setAppState, h10, h12, if_false, or_true, if_true]
    exact stdSort_name_pairwise _
  · simp only [setAppState, h10, h12, if_false, or_true, if_true]
  · simp only [setAppState, h10, h12, if_false, or_true, if_true]
  · simp only [setAppState, h20, if_false, true_or, if_true]
    exact stdSort_perm _ _
  · simp only [setAppState, h20, if_false, true_or, if_true]
    exact stdSort_name_pairwise _
  · simp only [setAppState, h20, if_false, true_or, if_true]
  · simp only [setAppState, h20, if_false, true_or, if_true]
  · intro state
    unfold setAppState
    refine ⟨?_, ?_, ?_⟩ <;> (simp only []; split_ifs <;> rfl)

theorem setAppState_appState (st : NavState) (state : Int) :
    (setAppState st state).appState = state := by
  unfold setAppState
  simp only []
  split_ifs <;> rfl

theorem nextAppState_appState (st : NavState) (i : Int) :
    (nextAppState st i).appState = Int.tmod (st.appState + i) 3 :=
  setAppState_appState st _

theorem setAppState_flags (st : NavState) (state : Int)
    (h : state = 0 ∨ state = 1 ∨ state = 2) :
    (setAppState st state).isPictureView = !(setAppState st state).isListView := by
  rcases h with h | h | h <;> subst h <;>
    simp [setAppState, APPSTATE_RECENTVIEW, APPSTATE_RECENTLIST, APPSTATE_FAVORITELIST]

/-- Steps that keep `appState + i` non-negative: from one of the three views
`nextAppState(i)` with `0 ≤ i` sets the view of index `(appState + i) mod 3`,
which is one of the three, with exactly one of picture and list browsing
enabled. -/
theorem nextAppState_of_nonneg (st : NavState) (i : Int) (hi : 0 ≤ i)
    (hst : st.appState = 0 ∨ st.appState = 1 ∨ st.appState = 2) :
    (nextAppState st i).appState = (st.appState + i) % 3
      ∧ ((nextAppState st i).appState = APPSTATE_RECENTVIEW
          ∨ (nextAppState st i).appState = APPSTATE_RECENTLIST
          ∨ (nextAppState st i).appState = APPSTATE_FAVORITELIST)
      ∧ (nextAppState st i).isPictureView = !(nextAppState st i).isListView := by
  have hnn : 0 ≤ st.appState + i := by omega
  have htmod : Int.tmod (st.appState + i) 3 = (st.appState + i) % 3 :=
    Int.tmod_eq_emod hnn (by decide)
  have hcases : (st.appState + i) % 3 = 0 ∨ (st.appState + i) % 3 = 1
      ∨ (st.appState + i) % 3 = 2 := by omega
  refine ⟨by rw [nextAppState_appState, htmod], ?_, ?_⟩
  · rw [nextAppState_appState, htmod]
    exact hcases
  · unfold nextAppState
    rw [htmod]
    exact setAppState_flags st _ hcases

/-- Three successive `nextAppState(1)` calls from one of the three views return
to the view they started from. -/
theorem nextAppState_cycle (st : NavState)
    (hst : st.appState = 0 ∨ st.appState = 1 ∨ st.appState = 2) :
    (nextAppState (nextAppState (nextAppState st 1) 1) 1).appState = st.appState := by
  simp only [nextAppState_appState]
  rcases hst with h | h | h <;> rw [h] <;> decide

/-- C15, the code at the failing input: `nextAppState(-1)` from Picture-Recent
(index 0) computes `(0 + -1) % 3 = -1` with the truncating `%` of an `int`,
where the non-negative remainder is 2; `setAppState` is called with a value
that is none of the three views and leaves neither picture nor list browsing
enabled and the active list empty. -/
theorem nextAppState_negative :
    pictureStart.appState = APPSTATE_RECENTVIEW
      ∧ pictureStart.currentGameList = threeGames
      ∧ (nextAppState pictureStart (-1)).appState = -1
      ∧ (pictureStart.appState + -1) % 3 = APPSTATE_FAVORITELIST
      ∧ (nextAppState pictureStart (-1)).isPictureView = false
      ∧ (nextAppState pictureStart (-1)).isListView = false
      ∧ (nextAppState pictureStart (-1)).currentGameList = [] := by
  decide

/-- C20: for a path that cannot be opened `loadGameInfo` returns the record
with `active = false` and the seven fields empty; and for every path the
returned record is active exactly when the file was opened. -/
theorem loadGameInfo_active_iff (fs : FileSystem) (filePath : Str) :
    (fs.files filePath = none →
        loadGameInfo fs filePath
          = { active := false, name := [], core := [], coreName := [], number := [],
              drive := [], folder := [], fileName := [] })
      ∧ ((loadGameInfo fs filePath).active = true ↔ (fs.files filePath).isSome = true) := by
  constructor
  · intro h
    simp only [loadGameInfo, h]
  · cases h : fs.files filePath with
    | none => simp [loadGameInfo, h]
    | some content => simp [loadGameInfo, h, readLines_active]

/-- Witness of C20: `d/e.cfg` of the catalog cannot be opened, `d/a.cfg` can. -/
theorem loadGameInfo_active_iff_witness :
    catalogFS.files "d/e.cfg".toList = none
      ∧ loadGameInfo catalogFS "d/e.cfg".toList = {}
      ∧ (loadGameInfo catalogFS "d/a.cfg".toList).active = true
      ∧ ((loadGameInfo catalogFS "d/e.cfg".toList).active = true
          ↔ (catalogFS.files "d/e.cfg".toList).isSome = true) :=
  ⟨by decide, (loadGameInfo_active_iff catalogFS "d/e.cfg".toList).1 (by decide), by decide,
    (loadGameInfo_active_iff catalogFS "d/e.cfg".toList).2⟩

/-! ## The auto-repeat timer -/

theorem held_iff (input : DirInput) :
    input.held = true ↔ (desiredXIndex input ≠ 0 ∨ desiredYIndex input ≠ 0) := by
  unfold DirInput.held
  exact decide_eq_true_iff

theorem dasTick_first (input : DirInput) (t dt : ℚ) (hheld : input.held = true) (ht : t ≤ 0) :
    (dasTick input t dt).fired = true ∧ (dasTick input t dt).dasTimer = t + dt := by
  have h := (held_iff input).1 hheld
  unfold dasTick
  rw [if_pos h, if_pos ht]
  refine ⟨?_, rfl⟩
  simpa [DasResult.fired] using h

theorem dasTick_wait (input : DirInput) (t dt : ℚ) (hheld : input.held = true) (ht : 0 < t)
    (ht1 : t ≤ 2666 / 10000) :
    (dasTick input t dt).fired = false ∧ (dasTick input t dt).dasTimer = t + dt := by
  have h := (held_iff input).1 hheld
  unfold dasTick
  rw [if_pos h, if_neg (not_le.2 ht), if_neg (not_lt.2 ht1)]
  exact ⟨rfl, rfl⟩

theorem dasTick_repeat (input : DirInput) (t dt : ℚ) (hheld : input.held = true)
    (ht1 : 2666 / 10000 < t) :
    (dasTick input t dt).fired = true ∧ (dasTick input t dt).dasTimer = t - 1 / 10 + dt := by
  have h := (held_iff input).1 hheld
  have ht : ¬ t ≤ 0 := by
    intro h0
    have : (0 : ℚ) < 2666 / 10000 := by norm_num
    linarith
  unfold dasTick
  rw [if_pos h, if_neg ht, if_pos ht1]
  refine ⟨?_, rfl⟩
  simpa [DasResult.fired] using h

theorem countFires_after (limit : ℚ) (ticks : List Tick) :
    ∀ t s : ℚ, limit < s → (∀ tick ∈ ticks, 0 ≤ tick.deltaTime) →
      countFires limit t s ticks = 0 := by
  induction ticks with
  | nil => intro t s _ _; rfl
  | cons tick rest ih =>
    intro t s hs hdt
    have hd : 0 ≤ tick.deltaTime := hdt tick (by simp)
    have hnot : ¬ ((dasTick tick.input t tick.deltaTime).fired = true ∧ s ≤ limit) :=
      fun h => absurd h.2 (not_le.2 hs)
    rw [countFires, if_neg hnot, ih _ _ (by linarith) (fun x hx => hdt x (by simp [hx]))]

/-- After the first fire and before the first repeat the timer equals the
accumulated hold time; no tick that starts at an accumulated time of at most
`limit ≤ T1` fires. -/
theorem countFires_delay (limit : ℚ) (hlimit : limit ≤ 2666 / 10000) (ticks : List Tick) :
    ∀ s : ℚ, 0 < s → (∀ tick ∈ ticks, tick.input.held = true) →
      (∀ tick ∈ ticks, 0 < tick.deltaTime) → countFires limit s s ticks = 0 := by
  induction ticks with
  | nil => intro s _ _ _; rfl
  | cons tick rest ih =>
    intro s hs hheld hdt
    have hd : 0 < tick.deltaTime := hdt tick (by simp)
    by_cases hle : s ≤ limit
    · obtain ⟨hf, ht⟩ := dasTick_wait tick.input s tick.deltaTime (hheld tick (by simp)) hs
        (le_trans hle hlimit)
      rw [countFires, hf, ht, if_neg (by simp)]
      rw [ih _ (by linarith) (fun x hx => hheld x (by simp [hx]))
        (fun x hx => hdt x (by simp [hx]))]
    · exact countFires_after limit _ _ _ (not_le.1 hle)
        (fun x hx => le_of_lt (hdt x hx))

theorem countFires_initial (limit : ℚ) (h0 : 0 ≤ limit) (hlimit : limit ≤ 2666 / 10000)
    (tick : Tick) (rest : List Tick) (hheld : ∀ x ∈ tick :: rest, x.input.held = true)
    (hdt : ∀ x ∈ tick :: rest, 0 < x.deltaTime) :
    countFires limit 0 0 (tick :: rest) = 1 := by
  have hd : 0 < tick.deltaTime := hdt tick (by simp)
  obtain ⟨hf, ht⟩ := dasTick_first tick.input 0 tick.deltaTime (hheld tick (by simp)) (le_refl 0)
  rw [countFires, hf, ht, if_pos ⟨rfl, h0⟩]
  rw [countFires_delay limit hlimit rest _ (by linarith) (fun x hx => hheld x (by simp [hx]))
    (fun x hx => hdt x (by simp [hx]))]

theorem countFires_repeated (ticks : List Tick) :
    ∀ t s : ℚ, 2666 / 10000 < s → t = s - 1 / 10 →
      (∀ tick ∈ ticks, tick.input.held = true) → (∀ tick ∈ ticks, 0 < tick.deltaTime) →
      countFires (3 / 10) t s ticks = 0 := by
  induction ticks with
  | nil => intro t s _ _ _ _; rfl
  | cons tick rest ih =>
    intro t s hs ht hheld hdt
    have hd : 0 < tick.deltaTime := hdt tick (by simp)
    by_cases hle : s ≤ 3 / 10
    · obtain ⟨hf, htm⟩ := dasTick_wait tick.input t tick.deltaTime (hheld tick (by simp))
        (by rw [ht]; linarith) (by rw [ht]; linarith)
      rw [countFires, hf, htm, if_neg (by simp)]
      rw [ih _ _ (by linarith) (by rw [ht]; ring) (fun x hx => hheld x (by simp [hx]))
        (fun x hx => hdt x (by simp [hx]))]
    · exact countFires_after _ _ _ _ (not_le.1 hle) (fun x hx => le_of_lt (hdt x hx))

theorem countFires_until_repeat (ticks : List Tick) :
    ∀ s : ℚ, 0 < s → s ≤ 2666 / 10000 + 1 / 30 →
      (∀ tick ∈ ticks, tick.input.held = true) →
      (∀ tick ∈ ticks, 0 < tick.deltaTime ∧ tick.deltaTime ≤ 1 / 30) →
      3 / 10 ≤ s + (ticks.map fun tick => tick.deltaTime).sum →
      countFires (3 / 10) s s ticks = 1 := by
  induction ticks with
  | nil =>
    intro s _ hs _ _ hsum
    simp only [List.map_nil, List.sum_nil, add_zero] at hsum
    exfalso
    linarith
  | cons tick rest ih =>
    intro s hs0 hs hheld hdt hsum
    obtain ⟨hd0, hd1⟩ := hdt tick (by simp)
    simp only [List.map_cons, List.sum_cons] at hsum
    by_cases hle : s ≤ 2666 / 10000
    · obtain ⟨hf, ht⟩ := dasTick_wait tick.input s tick.deltaTime (hheld tick (by simp)) hs0 hle
      rw [countFires, hf, ht, if_neg (by simp)]
      rw [ih _ (by linarith) (by linarith) (fun x hx => hheld x (by simp [hx]))
        (fun x hx => hdt x (by simp [hx])) (by linarith)]
    · have hgt : 2666 / 10000 < s := not_le.1 hle
      obtain ⟨hf, ht⟩ := dasTick_repeat tick.input s tick.deltaTime (hheld tick (by simp)) hgt
      rw [countFires, hf, ht, if_pos ⟨rfl, by linarith⟩]
      rw [countFires_repeated rest _ _ (by linarith) (by ring)
        (fun x hx => hheld x (by simp [hx])) (fun x hx => (hdt x (by simp [hx])).1)]

/-- C16: from `dasTimer = 0`, with a direction held on every tick, every
`deltaTime` in `(0, 1/30]` and a hold of at least 0.30 s, the ticks that start
at an accumulated hold time of at most 0.30 s fire exactly 2 move events: the
first tick fires, it is the only fire among the ticks that start at an
accumulated time of at most `T1 = 0.2666`, and one more fire follows. -/
theorem countFires_hold (ticks : List Tick) (hheld : ∀ tick ∈ ticks, tick.input.held = true)
    (hdt : ∀ tick ∈ ticks, 0 < tick.deltaTime ∧ tick.deltaTime ≤ 1 / 30)
    (hhold : 3 / 10 ≤ (ticks.map fun tick => tick.deltaTime).sum) :
    countFires (3 / 10) 0 0 ticks = 2
      ∧ countFires (2666 / 10000) 0 0 ticks = 1
      ∧ ∃ tick rest, ticks = tick :: rest ∧ (dasTick tick.input 0 tick.deltaTime).fired = true := by
  cases ticks with
  | nil =>
    simp only [List.map_nil, List.sum_nil] at hhold
    exfalso
    linarith
  | cons tick rest =>
    obtain ⟨hd0, hd1⟩ := hdt tick (by simp)
    obtain ⟨hf, ht⟩ := dasTick_first tick.input 0 tick.deltaTime (hheld tick (by simp))
      (le_refl 0)
    simp only [List.map_cons, List.sum_cons] at hhold
    refine ⟨?_, ?_, tick, rest, rfl, hf⟩
    · rw [countFires, hf, ht, if_pos ⟨rfl, by norm_num⟩]
      rw [countFires_until_repeat rest _ (by linarith) (by linarith)
        (fun x hx => hheld x (by simp [hx])) (fun x hx => hdt x (by simp [hx])) (by linarith)]
    · exact countFires_initial _ (by norm_num) (le_refl _) tick rest hheld
        (fun x hx => (hdt x hx).1)

/-- C17: from `dasTimer = 0`, with a direction held on every tick and every
`deltaTime` positive, the first tick fires and it is the only fire among the
ticks that start at an accumulated hold time of at most `T1 = 0.2666`; so the
ticks of a hold of 0.05 s fire exactly 1 move event. -/
theorem countFires_initial_delay (tick : Tick) (rest : List Tick)
    (hheld : ∀ x ∈ tick :: rest, x.input.held = true)
    (hdt : ∀ x ∈ tick :: rest, 0 < x.deltaTime) :
    (dasTick tick.input 0 tick.deltaTime).fired = true
      ∧ countFires (2666 / 10000) 0 0 (tick :: rest) = 1
      ∧ countFires (5 / 100) 0 0 (tick :: rest) = 1
      ∧ ∀ limit : ℚ, 0 ≤ limit → limit ≤ 2666 / 10000 →
          countFires limit 0 0 (tick :: rest) = 1 := by
  refine ⟨(dasTick_first tick.input 0 tick.deltaTime (hheld tick (by simp)) (le_refl 0)).1,
    countFires_initial _ (by norm_num) (le_refl _) tick rest hheld hdt,
    countFires_initial _ (by norm_num) (by norm_num) tick rest hheld hdt, ?_⟩
  intro limit h0 h1
  exact countFires_initial limit h0 h1 tick rest hheld hdt

theorem mem_replicate_rightTick (n : Nat) (d : ℚ) (tick : Tick)
    (h : tick ∈ List.replicate n (rightTick d)) : tick = rightTick d :=
  (List.mem_replicate.1 h).2

/-- Witness of C16: 19 ticks of 16 ms with `right` held fire twice. -/
theorem countFires_hold_witness :
    (∀ tick ∈ steadyHold, tick.input.held = true)
      ∧ (∀ tick ∈ steadyHold, 0 < tick.deltaTime ∧ tick.deltaTime ≤ 1 / 30)
      ∧ 3 / 10 ≤ (steadyHold.map fun tick => tick.deltaTime).sum
      ∧ countFires (3 / 10) 0 0 steadyHold = 2 :=
  have h1 : ∀ tick ∈ steadyHold, tick.input.held = true := fun tick h => by
    rw [mem_replicate_rightTick _ _ tick h]; rfl
  have h2 : ∀ tick ∈ steadyHold, 0 < tick.deltaTime ∧ tick.deltaTime ≤ 1 / 30 :=
    fun tick h => by
      rw [mem_replicate_rightTick _ _ tick h]
      norm_num [rightTick]
  have h3 : 3 / 10 ≤ (steadyHold.map fun tick => tick.deltaTime).sum := by
    norm_num [steadyHold, rightTick]
  ⟨h1, h2, h3, (countFires_hold steadyHold h1 h2 h3).1⟩

/-- Witness of C17: 3 ticks of 16 ms with `right` held fire once. -/
theorem countFires_initial_delay_witness :
    (∀ x ∈ shortHold, x.input.held = true) ∧ (∀ x ∈ shortHold, 0 < x.deltaTime)
      ∧ countFires (5 / 100) 0 0 shortHold = 1 :=
  have h1 : ∀ x ∈ shortHold, x.input.held = true := fun tick h => by
    rw [mem_replicate_rightTick _ _ tick h]; rfl
  have h2 : ∀ x ∈ shortHold, 0 < x.deltaTime := fun tick h => by
    rw [mem_replicate_rightTick _ _ tick h]
    norm_num [rightTick]
  ⟨h1, h2,
    (countFires_initial_delay (rightTick (16 / 1000)) (List.replicate 2 (rightTick (16 / 1000)))
      h1 h2).2.2.1⟩

/-! ## The camera -/

theorem clamp_window (v target : ℚ) : |clamp v (target - 200) (target + 200) - target| ≤ 200 := by
  unfold clamp
  rw [abs_le]
  split_ifs with h1 h2
  · constructor <;> linarith
  · constructor <;> linarith
  · constructor <;> linarith

/-- C18: after one camera update, which sets each of `camX` and `camY` to
`clamp(lerp(current, target, 0.1), target - 200, target + 200)`, the distance
between the current value and its target is at most 200, for every current
value and every target, on each axis independently. -/
theorem cameraStep_lag (st : NavState) :
    (cameraStep st).camX
        = clamp (lerp st.camX st.approachCamX (1 / 10)) (st.approachCamX - 200)
            (st.approachCamX + 200)
      ∧ (cameraStep st).camY
        = clamp (lerp st.camY st.approachCamY (1 / 10)) (st.approachCamY - 200)
            (st.approachCamY + 200)
      ∧ (cameraStep st).approachCamX = st.approachCamX
      ∧ (cameraStep st).approachCamY = st.approachCamY
      ∧ |(cameraStep st).camX - (cameraStep st).approachCamX| ≤ 200
      ∧ |(cameraStep st).camY - (cameraStep st).approachCamY| ≤ 200 :=
  ⟨rfl, rfl, rfl, rfl, clamp_window _ _, clamp_window _ _⟩

/-! ## The texture cache -/

/-- C19: for a path that is not in the cache, when decoding or uploading fails
`getData` and `get` return `nullptr` and leave the map as it was; a later
`getData` on the same path, when decoding and uploading succeed, returns the
new record, which is then the entry of that path, every other entry being as
before. -/
theorem getData_failure_not_cached (lib : ImageLib) (textureMap : TextureMap) (filename : Str)
    (hmiss : textureMap filename = none)
    (hfail : lib.IMG_Load filename = none
      ∨ ∃ surface, lib.IMG_Load filename = some surface
          ∧ lib.SDL_CreateTextureFromSurface surface = none) :
    getData lib textureMap filename = (textureMap, none)
      ∧ get lib textureMap filename = (textureMap, none)
      ∧ ∀ (lib2 : ImageLib) (surface : Surface) (texture : Nat),
          lib2.IMG_Load filename = some surface →
          lib2.SDL_CreateTextureFromSurface surface = some texture →
          ∃ data, (getData lib2 (getData lib textureMap filename).1 filename).2 = some data
            ∧ data.texture = texture ∧ data.filename = filename
            ∧ (getData lib2 (getData lib textureMap filename).1 filename).1 filename = some data
            ∧ ∀ p, p ≠ filename →
                (getData lib2 (getData lib textureMap filename).1 filename).1 p = textureMap p := by
  have hget : getData lib textureMap filename = (textureMap, none) := by
    unfold getData
    rw [hmiss]
    rcases hfail with h | ⟨surface, h1, h2⟩
    · simp only [h]
    · simp only [h1, h2]
  refine ⟨hget, ?_, ?_⟩
  · unfold get
    rw [hget]
  · intro lib2 surface texture h1 h2
    rw [hget]
    refine ⟨
      { filename := filename, surface := surface, texture := texture, width := surface.w,
        height := surface.h, aspect := (surface.w : ℚ) / (surface.h : ℚ) },
      ?_, rfl, rfl, ?_, ?_⟩
    · simp only [getData, hmiss, h1, h2]
    · simp only [getData, hmiss, h1, h2, TextureMap.insert, if_true]
    · intro p hp
      simp only [getData, hmiss, h1, h2, TextureMap.insert, if_neg hp]

/-- Witness of C19: a failed request on the empty cache leaves it empty, and
the next request with a working library returns texture 7. -/
theorem getData_failure_not_cached_witness :
    emptyCache "a.png".toList = none
      ∧ failingLib.IMG_Load "a.png".toList = none
      ∧ getData failingLib emptyCache "a.png".toList = (emptyCache, none)
      ∧ ((getData workingLib (getData failingLib emptyCache "a.png".toList).1
            "a.png".toList).2.map fun data => data.texture) = some 7 :=
  ⟨rfl, rfl,
    (getData_failure_not_cached failingLib emptyCache "a.png".toList rfl (Or.inl rfl)).1, rfl⟩

/-! ## The write-back path -/

theorem findLastOf_none (chars s : Str) (h : ∀ c ∈ s, c ∉ chars) : findLastOf chars s = none := by
  induction s with
  | nil => rfl
  | cons c cs ih =>
    rw [findLastOf, ih (fun x hx => h x (by simp [hx]))]
    exact if_neg (h c (by simp))

theorem findLastOf_append (chars s t : Str) (i : Nat) (h : findLastOf chars t = some i) :
    findLastOf chars (s ++ t) = some (s.length + i) := by
  induction s with
  | nil => simpa using h
  | cons c cs ih =>
    rw [List.cons_append, findLastOf, ih]
    simp only [List.length_cons]
    congr 1
    omega

theorem findLastOf_cons_last (chars : Str) (c : Char) (rest : Str) (hc : c ∈ chars)
    (hrest : ∀ x ∈ rest, x ∉ chars) : findLastOf chars (c :: rest) = some 0 := by
  rw [findLastOf, findLastOf_none chars rest hrest]
  exact if_pos hc

theorem substrTo_last_dot (pre ext : Str) (h : '.' ∉ ext) :
    substrTo (pre ++ '.' :: ext) (findLastOf ".".toList (pre ++ '.' :: ext)) = pre := by
  have h0 : findLastOf ".".toList ('.' :: ext) = some 0 :=
    findLastOf_cons_last _ _ _ (by decide) (fun x hx hmem => by
      have : x = '.' := by simpa using hmem
      exact h (this ▸ hx))
  rw [findLastOf_append _ pre _ 0 h0]
  exact List.take_left pre _

theorem substrTo_no_dot (name : Str) (h : '.' ∉ name) :
    substrTo name (findLastOf ".".toList name) = name := by
  rw [findLastOf_none _ name (fun x hx hmem => by
    have : x = '.' := by simpa using hmem
    exact h (this ▸ hx))]
  rfl

theorem exists_last_dot (name : Str) (h : '.' ∈ name) :
    ∃ pre ext, name = pre ++ '.' :: ext ∧ '.' ∉ ext := by
  induction name with
  | nil => simp at h
  | cons c cs ih =>
    by_cases hcs : '.' ∈ cs
    · obtain ⟨pre, ext, hsplit, hext⟩ := ih hcs
      exact ⟨c :: pre, ext, by rw [hsplit]; rfl, hext⟩
    · have hc : c = '.' := by
        rcases List.mem_cons.1 h with h | h
        · exact h.symm
        · exact absurd h hcs
      exact ⟨[], cs, by rw [hc]; rfl, hcs⟩

theorem dropWhile_not_dot (l rest : Str) (h : '.' ∉ l) :
    (l ++ '.' :: rest).dropWhile (fun c => decide (c ≠ '.')) = '.' :: rest := by
  induction l with
  | nil => simp
  | cons c cs ih =>
    have hc : c ≠ '.' := fun e => h (by simp [e])
    have hcs : '.' ∉ cs := fun e => h (by simp [e])
    rw [List.cons_append, List.dropWhile_cons_of_pos (by simpa using hc)]
    exact ih hcs

theorem stem_last_dot (pre ext : Str) (h : '.' ∉ ext) : stem (pre ++ '.' :: ext) = pre := by
  have hrev : '.' ∉ ext.reverse := fun e => h (List.mem_reverse.1 e)
  unfold stem
  rw [if_pos (by simp), List.reverse_append, List.reverse_cons, List.append_assoc,
    List.singleton_append, dropWhile_not_dot _ _ hrev]
  simp

theorem stem_no_dot (name : Str) (h : '.' ∉ name) : stem name = name := by
  unfold stem
  rw [if_neg h]

theorem substrTo_eq_stem (name : Str) :
    substrTo name (findLastOf ".".toList name) = stem name := by
  by_cases h : '.' ∈ name
  · obtain ⟨pre, ext, hsplit, hext⟩ := exists_last_dot name h
    rw [hsplit, substrTo_last_dot pre ext hext, stem_last_dot pre ext hext]
  · rw [substrTo_no_dot name h, stem_no_dot name h]

theorem historyPath_unchanged (dir name : Str) :
    historyPath dir name = historyPathInitial dir name := by
  have h0 : findLastOf ".zip".toList ".cfg".toList = some 0 := by decide
  have h := findLastOf_append ".zip".toList
    (dir ++ "/".toList ++ substrTo name (findLastOf ".".toList name)) ".cfg".toList 0 h0
  unfold historyPath
  rw [show historyPathInitial dir name
      = (dir ++ "/".toList ++ substrTo name (findLastOf ".".toList name)) ++ ".cfg".toList
    from rfl, h]
  simp only [substrTo, Nat.add_zero, List.take_left]

/-- C21: the path computed before hand-off is the history directory, `/`, the
display name without the text from its last `.` onward (the whole name when it
has no `.`), and `.cfg`; it ends in `.cfg`, and the adjustment made with
`find_last_of(".zip")` always finds the `.` of `.cfg` and leaves the path as it
was. -/
theorem historyPath_eq (dir name : Str) :
    historyPath dir name = dir ++ "/".toList ++ stem name ++ ".cfg".toList
      ∧ (∀ pre ext, name = pre ++ '.' :: ext → '.' ∉ ext → stem name = pre)
      ∧ ('.' ∉ name → stem name = name)
      ∧ ".cfg".toList <:+ historyPath dir name
      ∧ historyPath dir name = historyPathInitial dir name
      ∧ findLastOf ".zip".toList (historyPathInitial dir name)
          = some ((dir ++ "/".toList ++ stem name).length) := by
  have heq : historyPath dir name = dir ++ "/".toList ++ stem name ++ ".cfg".toList := by
    rw [historyPath_unchanged, historyPathInitial, substrTo_eq_stem]
  refine ⟨heq, ?_, stem_no_dot name, ?_, historyPath_unchanged dir name, ?_⟩
  · intro pre ext hsplit hext
    rw [hsplit]
    exact stem_last_dot pre ext hext
  · rw [heq]
    exact List.suffix_append _ _
  · have h0 : findLastOf ".zip".toList ".cfg".toList = some 0 := by decide
    rw [historyPathInitial, substrTo_eq_stem,
      findLastOf_append ".zip".toList (dir ++ "/".toList ++ stem name) ".cfg".toList 0 h0]
    rfl

/-! ## `drawPreserveAspect` -/

/-- For a cached image `drawPreserveAspect` fits the width for an aspect ratio
below 1 and the height otherwise; the other dimension follows from the aspect
ratio. -/
theorem drawPreserveAspect_cached (lib : ImageLib) (textureMap : TextureMap) (filename : Str)
    (data : TextureData) (centerX centerY w h rotation scale : ℚ)
    (hdata : textureMap filename = some data) :
    ((drawPreserveAspect lib textureMap filename centerX centerY w h rotation scale).2.map
        fun call => (call.w, call.h))
      = some (if data.aspect < 1 then (w, w / data.aspect) else (h * data.aspect, h)) := by
  unfold drawPreserveAspect getData
  rw [hdata]
  simp only []
  split_ifs <;> rfl

/-- C22, the code at the failing input: for a portrait image of 480 by 640
pixels (aspect ratio 3/4) and the box of 640 by 400 that `renderGameSwitcher`
requests, with scale 1, `drawPreserveAspect` passes the width 640 and the
height `640 / (3/4) = 2560/3` to `drawScaled`, which is above the requested
height 400. -/
theorem drawPreserveAspect_portrait :
    ((getData portraitLib emptyCache "p.png".toList).2.map fun data => data.aspect)
        = some (3 / 4)
      ∧ ((drawPreserveAspect portraitLib emptyCache "p.png".toList 320 240 640 400 0 1).2.map
          fun call => (call.w, call.h)) = some (640, 2560 / 3)
      ∧ (400 : ℚ) < 2560 / 3 := by
  refine ⟨?_, ?_, by norm_num⟩
  · simp only [getData, emptyCache, portraitLib, portraitSurface, Option.map_some']
    norm_num
  · simp only [drawPreserveAspect, getData, emptyCache, portraitLib, portraitSurface]
    norm_num

/-! ## The frame loop and the timer invariant -/

/-- With a direction held in the first two iterations of the frame loop, both
iterations fire a move event whatever the measured times are: `deltaTime` is
still `0.0` in the first iteration, so `dasTimer` is still `0` in the second. -/
theorem startFrames_first_two (f1 f2 : Frame) (frames : List Frame)
    (h1 : f1.input.held = true) (h2 : f2.input.held = true) :
    ∃ r1 r2 rest, startFrames (f1 :: f2 :: frames) = r1 :: r2 :: rest
      ∧ r1.fired = true ∧ r1.dasTimer = 0 ∧ r2.fired = true := by
  obtain ⟨hf1, ht1⟩ := dasTick_first f1.input 0 0 h1 (le_refl 0)
  have ht1' : (dasTick f1.input 0 0).dasTimer = 0 := by rw [ht1]; norm_num
  refine ⟨_, _, _, rfl, hf1, ht1', ?_⟩
  rw [ht1']
  exact (dasTick_first f2.input 0 f1.measured h2 (le_refl 0)).1

/-- C23, the code at the failing input: with `right` held from the first
iteration of the frame loop, the first iteration fires and leaves `dasTimer`
at 0 (since `deltaTime` is still `0.0`), and the second iteration takes the
immediate-fire branch again. -/
theorem startFrames_double_fire :
    ((startFrames heldFromStart).map fun r => (r.dirXInput, r.fired)) = [(1, true), (1, true)]
      ∧ ((startFrames heldFromStart).map fun r => r.dasTimer) = [0, 16 / 1000] := by
  constructor
  · simp only [startFrames, runFrames, heldFromStart, dasTick, desiredXIndex, desiredYIndex,
      DasResult.fired, List.map_cons, List.map_nil]
    norm_num
  · simp only [startFrames, runFrames, heldFromStart, dasTick, desiredXIndex, desiredYIndex,
      List.map_cons, List.map_nil]
    norm_num

theorem desiredXIndex_range (input : DirInput) :
    desiredXIndex input = -1 ∨ desiredXIndex input = 0 ∨ desiredXIndex input = 1 := by
  unfold desiredXIndex
  split_ifs <;> simp

theorem desiredYIndex_range (input : DirInput) :
    desiredYIndex input = -1 ∨ desiredYIndex input = 0 ∨ desiredYIndex input = 1 := by
  unfold desiredYIndex
  split_ifs <;> simp

theorem dasTick_range (input : DirInput) (t dt : ℚ) :
    ((dasTick input t dt).dirXInput = -1 ∨ (dasTick input t dt).dirXInput = 0
        ∨ (dasTick input t dt).dirXInput = 1)
      ∧ ((dasTick input t dt).dirYInput = -1 ∨ (dasTick input t dt).dirYInput = 0
        ∨ (dasTick input t dt).dirYInput = 1) := by
  have hx := desiredXIndex_range input
  have hy := desiredYIndex_range input
  unfold dasTick
  split_ifs <;> simp only [zero_add] <;> first | exact ⟨hx, hy⟩ | simp

theorem timer_invariant (ticks : List Tick) :
    ∀ t0 : ℚ, 0 ≤ t0 → (∀ tick ∈ ticks, tick.input.held = true) →
      (∀ tick ∈ ticks, 0 ≤ tick.deltaTime) →
      0 ≤ timerAfter t0 ticks
        ∧ timerAfter t0 ticks + 1 / 10 * (countRepeats t0 ticks : ℚ)
            = t0 + (ticks.map fun tick => tick.deltaTime).sum := by
  induction ticks with
  | nil =>
    intro t0 h0 _ _
    simp [timerAfter, countRepeats, h0]
  | cons tick rest ih =>
    intro t0 h0 hheld hdt
    have hd : 0 ≤ tick.deltaTime := hdt tick (by simp)
    have hh : tick.input.held = true := hheld tick (by simp)
    have hrest1 : ∀ x ∈ rest, x.input.held = true := fun x hx => hheld x (by simp [hx])
    have hrest2 : ∀ x ∈ rest, 0 ≤ x.deltaTime := fun x hx => hdt x (by simp [hx])
    simp only [timerAfter, countRepeats, List.map_cons, List.sum_cons]
    rcases le_or_lt t0 0 with hle | hpos
    · obtain ⟨hf, ht⟩ := dasTick_first tick.input t0 tick.deltaTime hh hle
      obtain ⟨ih1, ih2⟩ := ih (t0 + tick.deltaTime) (by linarith) hrest1 hrest2
      have hrep : repeatFired tick.input t0 tick.deltaTime = false := by
        simp [repeatFired, hf, not_lt.2 hle]
      rw [ht, hrep]
      refine ⟨ih1, ?_⟩
      simp only [Bool.false_eq_true, if_false, Nat.zero_add]
      linarith
    · rcases le_or_lt t0 (2666 / 10000) with hmid | hhi
      · obtain ⟨hf, ht⟩ := dasTick_wait tick.input t0 tick.deltaTime hh hpos hmid
        obtain ⟨ih1, ih2⟩ := ih (t0 + tick.deltaTime) (by linarith) hrest1 hrest2
        have hrep : repeatFired tick.input t0 tick.deltaTime = false := by
          simp [repeatFired, hf]
        rw [ht, hrep]
        refine ⟨ih1, ?_⟩
        simp only [Bool.false_eq_true, if_false, Nat.zero_add]
        linarith
      · obtain ⟨hf, ht⟩ := dasTick_repeat tick.input t0 tick.deltaTime hh hhi
        obtain ⟨ih1, ih2⟩ := ih (t0 - 1 / 10 + tick.deltaTime) (by linarith) hrest1 hrest2
        have hrep : repeatFired tick.input t0 tick.deltaTime = true := by
          simp [repeatFired, hf, hpos]
        rw [ht, hrep]
        refine ⟨ih1, ?_⟩
        simp only [if_true]
        push_cast
        linarith

/-- C24: from `dasTimer = 0`, with a direction held on every tick and every
`deltaTime` non-negative, after each tick the timer is non-negative and the
timer plus `T2 = 0.1` times the number of repeat fires so far is the sum of the
`deltaTime` values added so far; and every tick leaves `dirXInput` and
`dirYInput` in `{-1, 0, 1}`. -/
theorem timer_accounting (ticks : List Tick) (hheld : ∀ tick ∈ ticks, tick.input.held = true)
    (hdt : ∀ tick ∈ ticks, 0 ≤ tick.deltaTime) :
    (∀ n : Nat,
        0 ≤ timerAfter 0 (ticks.take n)
          ∧ timerAfter 0 (ticks.take n) + 1 / 10 * (countRepeats 0 (ticks.take n) : ℚ)
              = ((ticks.take n).map fun tick => tick.deltaTime).sum)
      ∧ ∀ (input : DirInput) (t dt : ℚ),
          ((dasTick input t dt).dirXInput = -1 ∨ (dasTick input t dt).dirXInput = 0
              ∨ (dasTick input t dt).dirXInput = 1)
            ∧ ((dasTick input t dt).dirYInput = -1 ∨ (dasTick input t dt).dirYInput = 0
              ∨ (dasTick input t dt).dirYInput = 1) := by
  refine ⟨?_, dasTick_range⟩
  intro n
  have h := timer_invariant (ticks.take n) 0 (le_refl 0)
    (fun x hx => hheld x (List.mem_of_mem_take hx))
    (fun x hx => hdt x (List.mem_of_mem_take hx))
  rw [zero_add] at h
  exact h

/-- Witness of C24: over 19 ticks of 16 ms with `right` held the timer ends
non-negative and accounts for the 0.304 s added. -/
theorem timer_accounting_witness :
    (∀ tick ∈ steadyHold, tick.input.held = true)
      ∧ (∀ tick ∈ steadyHold, 0 ≤ tick.deltaTime)
      ∧ 0 ≤ timerAfter 0 (steadyHold.take 19)
      ∧ timerAfter 0 (steadyHold.take 19) + 1 / 10 * (countRepeats 0 (steadyHold.take 19) : ℚ)
          = ((steadyHold.take 19).map fun tick => tick.deltaTime).sum :=
  have h1 : ∀ tick ∈ steadyHold, tick.input.held = true := fun tick h => by
    rw [mem_replicate_rightTick _ _ tick h]; rfl
  have h2 : ∀ tick ∈ steadyHold, 0 ≤ tick.deltaTime := fun tick h => by
    rw [mem_replicate_rightTick _ _ tick h]
    norm_num [rightTick]
  ⟨h1, h2, (timer_accounting steadyHold h1 h2).1 19⟩

end Mustard
